import Mathlib

/-!
Verification of the persistence subsystem of the KIS fitness tracker.

The definitions below are a shallow embedding of the storage layer:

* `src/infrastructure/storage/UserSettingsRepository.ts` — the settings
  repository and the localStorage ("degraded") backend;
* `src/infrastructure/storage/FoodRepository.ts` — the food repository, the
  storage factory and the IndexedDB ("durable") backend wrapper;
* `src/infrastructure/storage/ExerciseRepository.ts` — the exercise repository;
* `src/unnamed/part_009` — the data export/import service;
* `src/core/domain/UserSettings.ts` (and the other domain files in
  `src/unnamed`) — the entity shapes.

JavaScript timestamps are modelled as natural numbers of milliseconds; a JS
`Date` object is `Option ℕ` (`none` is an Invalid Date).  Platform builtins
that are not part of the repository (`Date.prototype.toISOString`, `Date`
string parsing, the `date-fns` day helpers, and the IndexedDB object-store
semantics) are modelled from the spec where noted.  Asynchrony is dropped:
every repository call is awaited by its caller, so a method is a function on
an explicit store state.  The mutually recursive settings `get`/`update`
pair is given a fuel argument; `Res.spin` marks fuel exhaustion, and a result
that is `.spin` for every fuel witnesses non-termination of the source.
-/

/-- Error taxonomy of the storage layer (spec §7): `duplicateKey` is the
`add` rejection, `notFound` the repository `update` miss, `invalidDate` the
`RangeError` thrown by `toISOString` on an Invalid Date. -/
inductive StorageErr where
  | duplicateKey
  | notFound
  | invalidDate
deriving DecidableEq, Repr

/-- Modelled from the spec: lexicographic (code-unit) string comparison on
`List Char`, the order JavaScript's `<=` uses on the ASCII strings stored in
the date indexes. -/
def lexLe : List Char → List Char → Bool
  | [], _ => true
  | _ :: _, [] => false
  | a :: as, b :: bs => if a = b then lexLe as bs else decide (a < b)

/-- JavaScript `a <= b` on strings. -/
def strLe (a b : String) : Bool := lexLe a.data b.data

/-- Range of timestamps whose serialized form is fixed-width (17 decimal
digits); every JS-representable date (|ms| ≤ 8.64e15) fits. -/
def jsTimeBound : ℕ := 10 ^ 17

/-- Fixed-width, zero-padded decimal rendering of `n` on `k` digits, most
significant digit first. -/
def digitChars : ℕ → ℕ → List Char
  | 0, _ => []
  | k + 1, n => Nat.digitChar (n / 10 ^ k) :: digitChars k (n % 10 ^ k)

/-- Modelled from the spec: `Date.prototype.toISOString` is a platform
builtin, specified as "the same fixed-width, zero-padded, UTC-normalized
format" whose lexical order agrees with chronological order; it is modelled
as the 17-digit zero-padded decimal rendering of the millisecond timestamp. -/
def pad17 (t : ℕ) : String := ⟨digitChars 17 t⟩

/-- `toISOString` on a JS `Date` value: throws (`none`) on an Invalid Date or
an out-of-range timestamp. -/
def toISOString (d : Option ℕ) : Option String :=
  d.bind fun t => if t < jsTimeBound then some (pad17 t) else none

/-- Character class of the serialized timestamp digits. -/
def isDigit (c : Char) : Bool := decide (48 ≤ c.toNat) && decide (c.toNat ≤ 57)

/-- Numeric value of a digit character. -/
def digitVal (c : Char) : ℕ := c.toNat - 48

/-- Modelled from the spec: `new Date(string)` parsing of a serialized
timestamp, the inverse of the serializer; any other text yields an Invalid
Date (`none`). -/
def parseIso (s : String) : Option ℕ :=
  if s.data.length = 17 ∧ s.data.all isDigit = true then
    some (s.data.foldl (fun a c => a * 10 + digitVal c) 0)
  else none

/-- JavaScript `new Date(s)`. -/
def jsNewDate (s : String) : Option ℕ := parseIso s

/-- Validity of a JS `Date`: a real timestamp in the representable range. -/
def jdateOk (d : Option ℕ) : Bool :=
  match d with
  | some t => decide (t < jsTimeBound)
  | none => false

/-- Modelled from the spec: the `date-fns` day span, "a query for date range
[d1, d2] matches any record whose timestamp falls within the full day spans
of d1 through d2"; one day is 86400000 ms. -/
def dayMillis : ℕ := 86400000

/-- Modelled from the spec: `startOfDay` of `date-fns` — midnight of the day
containing `t`. -/
def startOfDay (t : ℕ) : ℕ := t / dayMillis * dayMillis

/-- Modelled from the spec: `endOfDay` of `date-fns` — 23:59:59.999 of the
day containing `t`. -/
def endOfDay (t : ℕ) : ℕ := startOfDay t + (dayMillis - 1)

/-! ## Domain entities (src/core/domain, src/unnamed domain parts) -/

/-- Weight unit enumeration (`src/core/domain/UserSettings.ts`). -/
inductive WeightUnit where
  | lbs
  | kg
deriving DecidableEq, Repr

/-- Theme enumeration (`src/core/domain/UserSettings.ts`). -/
inductive Theme where
  | light
  | dark
  | system
deriving DecidableEq, Repr

/-- `UserSettings` domain record; `updatedAt` is a JS `Date`. -/
structure UserSettings where
  dailyCalorieGoal : ℕ
  weightUnit : WeightUnit
  theme : Theme
  updatedAt : Option ℕ
deriving DecidableEq, Repr

/-- `ExerciseSet` domain record. -/
structure ExerciseSet where
  id : String
  reps : ℕ
  weight : ℚ
deriving DecidableEq, Repr

/-- `Exercise` domain record. -/
structure Exercise where
  id : String
  name : String
  date : Option ℕ
  sets : List ExerciseSet
  notes : Option String
  createdAt : Option ℕ
  updatedAt : Option ℕ
deriving DecidableEq, Repr

/-- Meal type enumeration. -/
inductive MealType where
  | breakfast
  | lunch
  | dinner
  | snack
deriving DecidableEq, Repr

/-- `NutritionInfo` domain record. -/
structure NutritionInfo where
  calories : ℚ
  protein : ℚ
  carbs : ℚ
  fats : ℚ
deriving DecidableEq, Repr

/-- `FoodEntry` domain record. -/
structure FoodEntry where
  id : String
  name : String
  date : Option ℕ
  mealType : MealType
  servingSize : String
  servingMultiplier : ℚ
  nutrition : NutritionInfo
  createdAt : Option ℕ
  updatedAt : Option ℕ
deriving DecidableEq, Repr

/-! ## Stored (serialized) record shapes: date fields are ISO text -/

/-- Stored exercise record: the serializer's output, date fields as text. -/
structure RawExercise where
  id : String
  name : String
  date : String
  sets : List ExerciseSet
  notes : Option String
  createdAt : String
  updatedAt : String
deriving DecidableEq, Repr

/-- Stored food record. -/
structure RawFood where
  id : String
  name : String
  date : String
  mealType : MealType
  servingSize : String
  servingMultiplier : ℚ
  nutrition : NutritionInfo
  createdAt : String
  updatedAt : String
deriving DecidableEq, Repr

/-- Stored settings record: `serialize` adds the well-known `id`. -/
structure RawSettings where
  id : String
  dailyCalorieGoal : ℕ
  weightUnit : WeightUnit
  theme : Theme
  updatedAt : String
deriving DecidableEq, Repr

/-- Well-known key of the settings singleton
(`UserSettingsRepository.ts` line 13). -/
def SETTINGS_ID : String := "user-settings"

/-! ## Storage engines

Both engines hold a store as an association list from `id` to record.  The
degraded (localStorage) engine's persisted text is `StoredText`: the raw
`localStorage.getItem` result, which can be absent, unparseable, or a parsed
object whose property order is insertion order.  The durable (IndexedDB)
engine keeps its entries sorted by primary key and its platform semantics
(reject on existing key, inclusive bound ranges, key-ordered reads) are
modelled from the spec §4.1 contract. -/

/-- Association-list lookup, the model of JS property access `data[id]`. -/
def alookup {β : Type} (k : String) : List (String × β) → Option β
  | [] => none
  | p :: ps => if p.1 = k then some p.2 else alookup k ps

/-- Insertion into a key-ordered list, the model of a B-tree insert. -/
def insertSorted {β : Type} (le : β → β → Bool) (a : β) : List β → List β
  | [] => [a]
  | b :: l => if le a b then a :: b :: l else b :: insertSorted le a l

/-- Key order on store entries. -/
def pairKeyLe {β : Type} (p q : String × β) : Bool := strLe p.1 q.1

/-- Raw text held under a store's localStorage key: absent, unparseable, or
a parsed object (`UserSettingsRepository.ts` `getStoreData`). -/
inductive StoredText (β : Type) where
  | absent
  | corrupt
  | stored (data : List (String × β))
deriving DecidableEq, Repr

/-- `getStoreData` (`UserSettingsRepository.ts` lines 109–122): absent text
yields the empty object, and a `JSON.parse` failure is caught and also
yields the empty object. -/
def getStoreData {β : Type} : StoredText β → List (String × β)
  | .absent => []
  | .corrupt => []
  | .stored d => d

/-- localStorage engine `getById`: `data[id] || null` (records are objects,
hence truthy). -/
def lsGetById {β : Type} (t : StoredText β) (id : String) : Option β :=
  alookup id (getStoreData t)

/-- localStorage engine `getAll`: `Object.values(data)` in property
(insertion) order. -/
def lsGetAll {β : Type} (t : StoredText β) : List β :=
  (getStoreData t).map Prod.snd

/-- localStorage engine `add`: throw on an existing id, else store under the
record's id. -/
def lsAdd {β : Type} (key : β → String) (t : StoredText β) (r : β) :
    Except StorageErr (StoredText β) :=
  let data := getStoreData t
  if (alookup (key r) data).isSome then .error .duplicateKey
  else .ok (.stored (data ++ [(key r, r)]))

/-- localStorage engine `update` (upsert): `data[item.id] = item`, which
replaces in place when the key exists and appends otherwise. -/
def lsUpdate {β : Type} (key : β → String) (t : StoredText β) (r : β) :
    StoredText β :=
  let data := getStoreData t
  if (alookup (key r) data).isSome then
    .stored (data.map fun p => if p.1 = key r then (key r, r) else p)
  else .stored (data ++ [(key r, r)])

/-- localStorage engine `deleteById`: `delete data[id]` then write back. -/
def lsDeleteById {β : Type} (t : StoredText β) (id : String) : StoredText β :=
  .stored ((getStoreData t).filter fun p => decide (p.1 ≠ id))

/-- localStorage engine `getByIndex`: linear scan with `===` on the field. -/
def lsGetByIndex {β : Type} (fld : β → String → Option String)
    (t : StoredText β) (idx v : String) : List β :=
  (lsGetAll t).filter fun r => decide (fld r idx = some v)

/-- localStorage engine `getByIndexRange`: linear scan,
`item[idx] >= lower && item[idx] <= upper` (a missing field compares as
`undefined`, which satisfies neither bound). -/
def lsGetByIndexRange {β : Type} (fld : β → String → Option String)
    (t : StoredText β) (idx lo hi : String) : List β :=
  (lsGetAll t).filter fun r =>
    match fld r idx with
    | some s => strLe lo s && strLe s hi
    | none => false

/-- localStorage engine `clearStore`: `localStorage.removeItem`. -/
def lsClearStore {β : Type} (_ : StoredText β) : StoredText β := .absent

/-- IndexedDB engine `getById` (point get on the primary key). -/
def idbGetById {β : Type} (st : List (String × β)) (id : String) : Option β :=
  alookup id st

/-- IndexedDB engine `getAll`: all records in primary-key order. -/
def idbGetAll {β : Type} (st : List (String × β)) : List β :=
  st.map Prod.snd

/-- IndexedDB engine `add`: `store.add` rejects when the key exists
(ConstraintError surfaced as the wrapper's rejection), else inserts. -/
def idbAdd {β : Type} (key : β → String) (st : List (String × β)) (r : β) :
    Except StorageErr (List (String × β)) :=
  if (alookup (key r) st).isSome then .error .duplicateKey
  else .ok (insertSorted pairKeyLe (key r, r) st)

/-- IndexedDB engine `update`: `store.put`, an unconditional upsert. -/
def idbPut {β : Type} (key : β → String) (st : List (String × β)) (r : β) :
    List (String × β) :=
  if (alookup (key r) st).isSome then
    st.map fun p => if p.1 = key r then (key r, r) else p
  else insertSorted pairKeyLe (key r, r) st

/-- IndexedDB engine `deleteById`: idempotent removal. -/
def idbDeleteById {β : Type} (st : List (String × β)) (id : String) :
    List (String × β) :=
  st.filter fun p => decide (p.1 ≠ id)

/-- IndexedDB engine `getByIndex`: records whose index key equals the value,
in primary-key order (the store's own order, since equal index keys sort by
primary key). -/
def idbGetByIndex {β : Type} (fld : β → String → Option String)
    (st : List (String × β)) (idx v : String) : List β :=
  (idbGetAll st).filter fun r => decide (fld r idx = some v)

/-- IndexedDB engine `getByIndexRange`: `IDBKeyRange.bound` with inclusive
bounds, results sorted by index key (ties in primary-key order: the filter
runs in primary-key order and the sort is stable). -/
def idbGetByIndexRange {β : Type} (fld : β → String → Option String)
    (st : List (String × β)) (idx lo hi : String) : List β :=
  ((idbGetAll st).filter fun r =>
    match fld r idx with
    | some s => strLe lo s && strLe s hi
    | none => false).mergeSort fun r r' =>
      strLe ((fld r idx).getD "") ((fld r' idx).getD "")

/-- IndexedDB engine `clearStore`. -/
def idbClearStore {β : Type} : List (String × β) := []

/-! ## Entity repositories -/

/-- `ExerciseRepository.serialize`: spread plus `toISOString` on the three
date fields; `none` models the throw on an Invalid/out-of-range Date. -/
def ExerciseRepository.serialize (e : Exercise) : Option RawExercise :=
  match toISOString e.date, toISOString e.createdAt, toISOString e.updatedAt with
  | some d, some c, some u => some ⟨e.id, e.name, d, e.sets, e.notes, c, u⟩
  | _, _, _ => none

/-- Total form of `ExerciseRepository.serialize`, equal to it on valid
entities (see `serialize_eq_serializeV`). -/
def ExerciseRepository.serializeV (e : Exercise) : RawExercise :=
  ⟨e.id, e.name, pad17 (e.date.getD 0), e.sets, e.notes,
    pad17 (e.createdAt.getD 0), pad17 (e.updatedAt.getD 0)⟩

/-- `ExerciseRepository.deserialize`: spread plus `new Date` on the three
date fields (a corrupt text yields an Invalid Date, not an error). -/
def ExerciseRepository.deserialize (r : RawExercise) : Exercise :=
  ⟨r.id, r.name, jsNewDate r.date, r.sets, r.notes,
    jsNewDate r.createdAt, jsNewDate r.updatedAt⟩

/-- `FoodRepository.serialize`. -/
def FoodRepository.serialize (f : FoodEntry) : Option RawFood :=
  match toISOString f.date, toISOString f.createdAt, toISOString f.updatedAt with
  | some d, some c, some u =>
    some ⟨f.id, f.name, d, f.mealType, f.servingSize, f.servingMultiplier,
      f.nutrition, c, u⟩
  | _, _, _ => none

/-- Total form of `FoodRepository.serialize` on valid entities. -/
def FoodRepository.serializeV (f : FoodEntry) : RawFood :=
  ⟨f.id, f.name, pad17 (f.date.getD 0), f.mealType, f.servingSize,
    f.servingMultiplier, f.nutrition, pad17 (f.createdAt.getD 0),
    pad17 (f.updatedAt.getD 0)⟩

/-- `FoodRepository.deserialize`. -/
def FoodRepository.deserialize (r : RawFood) : FoodEntry :=
  ⟨r.id, r.name, jsNewDate r.date, r.mealType, r.servingSize,
    r.servingMultiplier, r.nutrition, jsNewDate r.createdAt,
    jsNewDate r.updatedAt⟩

/-- `UserSettingsRepository.serialize`: adds the well-known id and converts
`updatedAt` to ISO text. -/
def UserSettingsRepository.serialize (s : UserSettings) : Option RawSettings :=
  (toISOString s.updatedAt).map fun u =>
    ⟨SETTINGS_ID, s.dailyCalorieGoal, s.weightUnit, s.theme, u⟩

/-- `UserSettingsRepository.deserialize`: picks the four domain fields,
dropping the storage id. -/
def UserSettingsRepository.deserialize (r : RawSettings) : UserSettings :=
  ⟨r.dailyCalorieGoal, r.weightUnit, r.theme, jsNewDate r.updatedAt⟩

/-- Index-field accessor of stored exercises (`item[indexName]`), for the
string-valued indexed fields of the `exercises` store. -/
def exFld (r : RawExercise) (idx : String) : Option String :=
  if idx = "id" then some r.id
  else if idx = "name" then some r.name
  else if idx = "date" then some r.date
  else if idx = "createdAt" then some r.createdAt
  else if idx = "updatedAt" then some r.updatedAt
  else none

/-- Stored string value of a meal type. -/
def mealTypeStr : MealType → String
  | .breakfast => "breakfast"
  | .lunch => "lunch"
  | .dinner => "dinner"
  | .snack => "snack"

/-- Index-field accessor of stored food records. -/
def foodFld (r : RawFood) (idx : String) : Option String :=
  if idx = "id" then some r.id
  else if idx = "name" then some r.name
  else if idx = "date" then some r.date
  else if idx = "mealType" then some (mealTypeStr r.mealType)
  else if idx = "createdAt" then some r.createdAt
  else if idx = "updatedAt" then some r.updatedAt
  else none

/-- Validity of an exercise entity: its three dates are real in-range
timestamps. -/
def exerciseOk (e : Exercise) : Bool :=
  jdateOk e.date && jdateOk e.createdAt && jdateOk e.updatedAt

/-- Validity of a food entity. -/
def foodOk (f : FoodEntry) : Bool :=
  jdateOk f.date && jdateOk f.createdAt && jdateOk f.updatedAt

/-- Validity of a stored exercise record: its date texts parse back. -/
def rawExOk (r : RawExercise) : Bool :=
  (parseIso r.date).isSome && (parseIso r.createdAt).isSome &&
    (parseIso r.updatedAt).isSome

/-- Validity of a stored food record. -/
def rawFoodOk (r : RawFood) : Bool :=
  (parseIso r.date).isSome && (parseIso r.createdAt).isSome &&
    (parseIso r.updatedAt).isSome

/-- `ExerciseRepository.getById` against the IndexedDB backend the class is
bound to: `item ? this.deserialize(item) : null`. -/
def ExerciseRepository.getByIdIDB (st : List (String × RawExercise))
    (id : String) : Option Exercise :=
  (idbGetById st id).map ExerciseRepository.deserialize

/-- `ExerciseRepository.getAll` against the IndexedDB backend. -/
def ExerciseRepository.getAllIDB (st : List (String × RawExercise)) :
    List Exercise :=
  (idbGetAll st).map ExerciseRepository.deserialize

/-- `FoodRepository.getAll` against the IndexedDB backend. -/
def FoodRepository.getAllIDB (st : List (String × RawFood)) : List FoodEntry :=
  (idbGetAll st).map FoodRepository.deserialize

/-- `FoodRepository.getById` against the IndexedDB backend. -/
def FoodRepository.getByIdIDB (st : List (String × RawFood)) (id : String) :
    Option FoodEntry :=
  (idbGetById st id).map FoodRepository.deserialize

/-- `ExerciseRepository.getByDateRange` on the localStorage backend:
`startOfDay(startDate).toISOString()` .. `endOfDay(endDate).toISOString()`
fed to the engine's inclusive index-range scan, results deserialized. -/
def ExerciseRepository.getByDateRangeLS (d1 d2 : ℕ)
    (t : StoredText RawExercise) : Except StorageErr (List Exercise) :=
  match toISOString (some (startOfDay d1)), toISOString (some (endOfDay d2)) with
  | some lo, some hi =>
    .ok ((lsGetByIndexRange exFld t "date" lo hi).map ExerciseRepository.deserialize)
  | _, _ => .error .invalidDate

/-- `ExerciseRepository.getByDateRange` on the IndexedDB backend. -/
def ExerciseRepository.getByDateRangeIDB (d1 d2 : ℕ)
    (st : List (String × RawExercise)) : Except StorageErr (List Exercise) :=
  match toISOString (some (startOfDay d1)), toISOString (some (endOfDay d2)) with
  | some lo, some hi =>
    .ok ((idbGetByIndexRange exFld st "date" lo hi).map ExerciseRepository.deserialize)
  | _, _ => .error .invalidDate

/-- `FoodRepository.create` on the IndexedDB backend: serialize, `add`,
return the entity unchanged. -/
def FoodRepository.createIDB (f : FoodEntry) (st : List (String × RawFood)) :
    Except StorageErr (FoodEntry × List (String × RawFood)) :=
  match FoodRepository.serialize f with
  | none => .error .invalidDate
  | some raw => (idbAdd RawFood.id st raw).map fun st' => (f, st')

/-- `FoodRepository.create` on the localStorage backend. -/
def FoodRepository.createLS (f : FoodEntry) (t : StoredText RawFood) :
    Except StorageErr (FoodEntry × StoredText RawFood) :=
  match FoodRepository.serialize f with
  | none => .error .invalidDate
  | some raw => (lsAdd RawFood.id t raw).map fun t' => (f, t')

/-- `ExerciseRepository.create` on the IndexedDB backend. -/
def ExerciseRepository.createIDB (e : Exercise)
    (st : List (String × RawExercise)) :
    Except StorageErr (Exercise × List (String × RawExercise)) :=
  match ExerciseRepository.serialize e with
  | none => .error .invalidDate
  | some raw => (idbAdd RawExercise.id st raw).map fun st' => (e, st')

/-- Field set of `Partial<Exercise>`: each property may be present or
absent; `date`, `notes`, `createdAt`, `updatedAt` carry their ordinary
(possibly undefined/invalid) values when present. -/
structure ExercisePatch where
  id : Option String := none
  name : Option String := none
  date : Option (Option ℕ) := none
  sets : Option (List ExerciseSet) := none
  notes : Option (Option String) := none
  createdAt : Option (Option ℕ) := none
  updatedAt : Option (Option ℕ) := none
deriving DecidableEq, Repr

/-- Spread merge of `ExerciseRepository.update`:
`{ ...existing, ...updates, id, updatedAt: new Date() }` — the id is
re-pinned and `updatedAt` stamped, every other provided field (including
`createdAt`) overrides the stored one. -/
def ExerciseRepository.mergeUpdate (existing : Exercise) (p : ExercisePatch)
    (id : String) (now : ℕ) : Exercise :=
  { id := id
    name := p.name.getD existing.name
    date := p.date.getD existing.date
    sets := p.sets.getD existing.sets
    notes := p.notes.getD existing.notes
    createdAt := p.createdAt.getD existing.createdAt
    updatedAt := some now }

/-- `ExerciseRepository.update` on the IndexedDB backend: `NotFound` when
the id is absent, else merge, stamp, write back with `put`. -/
def ExerciseRepository.updateIDB (now : ℕ) (id : String) (p : ExercisePatch)
    (st : List (String × RawExercise)) :
    Except StorageErr (Exercise × List (String × RawExercise)) :=
  match ExerciseRepository.getByIdIDB st id with
  | none => .error .notFound
  | some existing =>
    let updated := ExerciseRepository.mergeUpdate existing p id now
    match ExerciseRepository.serialize updated with
    | none => .error .invalidDate
    | some raw => .ok (updated, idbPut RawExercise.id st raw)

/-- Field set of `Partial<FoodEntry>`. -/
structure FoodPatch where
  id : Option String := none
  name : Option String := none
  date : Option (Option ℕ) := none
  mealType : Option MealType := none
  servingSize : Option String := none
  servingMultiplier : Option ℚ := none
  nutrition : Option NutritionInfo := none
  createdAt : Option (Option ℕ) := none
  updatedAt : Option (Option ℕ) := none
deriving DecidableEq, Repr

/-- Spread merge of `FoodRepository.update`. -/
def FoodRepository.mergeUpdate (existing : FoodEntry) (p : FoodPatch)
    (id : String) (now : ℕ) : FoodEntry :=
  { id := id
    name := p.name.getD existing.name
    date := p.date.getD existing.date
    mealType := p.mealType.getD existing.mealType
    servingSize := p.servingSize.getD existing.servingSize
    servingMultiplier := p.servingMultiplier.getD existing.servingMultiplier
    nutrition := p.nutrition.getD existing.nutrition
    createdAt := p.createdAt.getD existing.createdAt
    updatedAt := some now }

/-- `FoodRepository.update` on the IndexedDB backend. -/
def FoodRepository.updateIDB (now : ℕ) (id : String) (p : FoodPatch)
    (st : List (String × RawFood)) :
    Except StorageErr (FoodEntry × List (String × RawFood)) :=
  match FoodRepository.getByIdIDB st id with
  | none => .error .notFound
  | some existing =>
    let updated := FoodRepository.mergeUpdate existing p id now
    match FoodRepository.serialize updated with
    | none => .error .invalidDate
    | some raw => .ok (updated, idbPut RawFood.id st raw)

/-! ## Settings repository: the mutually recursive `get`/`update` pair

`get` reads the well-known key; on absence it calls `this.update(DEFAULTS)`
to materialize the defaults, and `update` begins with `await this.get()`.
The fuel argument counts call depth; `Res.spin` is fuel exhaustion. -/

/-- Result of a fuelled repository call: a value, a thrown error, or fuel
exhaustion (`spin`). -/
inductive Res (γ : Type) where
  | ok : γ → Res γ
  | err : StorageErr → Res γ
  | spin : Res γ
deriving DecidableEq

/-- Sequencing of fuelled results. -/
def Res.bind {γ δ : Type} : Res γ → (γ → Res δ) → Res δ
  | .ok g, f => f g
  | .err e, _ => .err e
  | .spin, _ => .spin

/-- Field set of `Partial<UserSettings>`. -/
structure SettingsPatch where
  dailyCalorieGoal : Option ℕ := none
  weightUnit : Option WeightUnit := none
  theme : Option Theme := none
  updatedAt : Option (Option ℕ) := none
deriving DecidableEq, Repr

/-- Spread merge of `UserSettingsRepository.update`:
`{ ...existing, ...settings, updatedAt: new Date() }`. -/
def UserSettingsRepository.mergeUpdate (existing : UserSettings)
    (p : SettingsPatch) (now : ℕ) : UserSettings :=
  { dailyCalorieGoal := p.dailyCalorieGoal.getD existing.dailyCalorieGoal
    weightUnit := p.weightUnit.getD existing.weightUnit
    theme := p.theme.getD existing.theme
    updatedAt := some now }

/-- `DEFAULT_USER_SETTINGS` (`src/core/domain/UserSettings.ts`): calorie
goal 2000, unit lbs, theme system; its `updatedAt` is the module-load
`new Date()`, written here as timestamp 0 — the value is unobservable
because the defaulting path never terminates (see
`c1_settingsGet_empty_diverges`). -/
def DEFAULT_USER_SETTINGS : UserSettings := ⟨2000, .lbs, .system, some 0⟩

/-- The default record as the `Partial<UserSettings>` argument that
`get` passes to `update` (every field present). -/
def defaultSettingsPatch : SettingsPatch :=
  ⟨some 2000, some .lbs, some .system, some (some 0)⟩

mutual

/-- `UserSettingsRepository.get` (lines 41–51): read the well-known key;
deserialize when present; otherwise call `this.update(DEFAULT_USER_SETTINGS)`
and return the defaults.  Fuel only gates recursion depth: a present record
is returned at any fuel. -/
def UserSettingsRepository.get : (fuel : ℕ) → (now : ℕ) →
    List (String × RawSettings) → Res (UserSettings × List (String × RawSettings))
  | 0, _, st =>
    match idbGetById st SETTINGS_ID with
    | some raw => .ok (UserSettingsRepository.deserialize raw, st)
    | none => .spin
  | fuel + 1, now, st =>
    match idbGetById st SETTINGS_ID with
    | some raw => .ok (UserSettingsRepository.deserialize raw, st)
    | none =>
      (UserSettingsRepository.update fuel now defaultSettingsPatch st).bind
        fun pr => .ok (DEFAULT_USER_SETTINGS, pr.2)

/-- `UserSettingsRepository.update` (lines 53–66): `await this.get()`,
spread merge with a fresh `updatedAt`, serialize, `db.update` (put). -/
def UserSettingsRepository.update : (fuel : ℕ) → (now : ℕ) → SettingsPatch →
    List (String × RawSettings) → Res (UserSettings × List (String × RawSettings))
  | 0, _, _, _ => .spin
  | fuel + 1, now, p, st =>
    (UserSettingsRepository.get fuel now st).bind fun pr =>
      let updated := UserSettingsRepository.mergeUpdate pr.1 p now
      match UserSettingsRepository.serialize updated with
      | none => .err .invalidDate
      | some raw => .ok (updated, idbPut RawSettings.id pr.2 raw)

end

/-! ## Data export service (src/unnamed/part_009) -/

/-- Version tag of export snapshots. -/
def EXPORT_VERSION : String := "1.0.0"

/-- A JSON field that `importData` probes with `Array.isArray`: either an
array of the expected element shape or anything else. -/
inductive JField (β : Type) where
  | arr (l : List β)
  | nonArray
deriving DecidableEq, Repr

/-- Exported settings object: the domain fields with `updatedAt` as ISO
text (no storage id is included in the snapshot). -/
structure SnapSettings where
  dailyCalorieGoal : ℕ
  weightUnit : WeightUnit
  theme : Theme
  updatedAt : String
deriving DecidableEq, Repr

/-- `ExportData` snapshot document. `settings := none` models an
absent/falsy `settings` field. -/
structure ExportData where
  exercises : JField RawExercise
  foods : JField RawFood
  settings : Option SnapSettings
  exportedAt : String
  version : String
deriving DecidableEq, Repr

/-- The three stores owned by the persistence layer. -/
structure AppState where
  exercises : List (String × RawExercise)
  foods : List (String × RawFood)
  settings : List (String × RawSettings)
deriving DecidableEq, Repr

/-- Option-valued map over a list, modelling a JS `.map` whose callback can
throw: the first throw aborts the whole map. -/
def optionMapList {α β : Type} (f : α → Option β) : List α → Option (List β)
  | [] => some []
  | a :: l =>
    match f a, optionMapList f l with
    | some b, some bs => some (b :: bs)
    | _, _ => none

/-- `DataExportRepository.clearAllData`: clear the three stores. -/
def DataExportRepository.clearAllData (_ : AppState) : AppState :=
  ⟨idbClearStore, idbClearStore, idbClearStore⟩

/-- `DataExportRepository.exportData`: read all three repositories, then
serialize every timestamp to ISO text and stamp the export time and version
tag.  The settings read may materialize defaults (and hence spin); the
serialization maps run while the return object is built. -/
def DataExportRepository.exportData (fuel now : ℕ) (st : AppState) :
    Res (ExportData × AppState) :=
  (UserSettingsRepository.get fuel now st.settings).bind fun pr =>
    match optionMapList ExerciseRepository.serialize
            (ExerciseRepository.getAllIDB st.exercises),
          optionMapList FoodRepository.serialize
            (FoodRepository.getAllIDB st.foods),
          toISOString pr.1.updatedAt, toISOString (some now) with
    | some exs, some fds, some uIso, some nowIso =>
      .ok ({ exercises := .arr exs, foods := .arr fds,
             settings := some ⟨pr.1.dailyCalorieGoal, pr.1.weightUnit,
               pr.1.theme, uIso⟩,
             exportedAt := nowIso, version := EXPORT_VERSION },
           { st with settings := pr.2 })
    | _, _, _, _ => .err .invalidDate

/-- Exercise re-creation loop of `importData`: each element is re-parsed
(`new Date` on the three date texts — exactly `deserialize`) and handed to
`ExerciseRepository.create`. -/
def importRawExercises : List RawExercise → List (String × RawExercise) →
    Except StorageErr (List (String × RawExercise))
  | [], st => .ok st
  | ex :: rest, st =>
    match ExerciseRepository.createIDB (ExerciseRepository.deserialize ex) st with
    | .error e => .error e
    | .ok pr => importRawExercises rest pr.2

/-- Food re-creation loop of `importData`. -/
def importRawFoods : List RawFood → List (String × RawFood) →
    Except StorageErr (List (String × RawFood))
  | [], st => .ok st
  | f :: rest, st =>
    match FoodRepository.createIDB (FoodRepository.deserialize f) st with
    | .error e => .error e
    | .ok pr => importRawFoods rest pr.2

/-- `DataExportRepository.importData`: warn on a version mismatch (no
observable effect), clear all stores, re-create the `exercises` and `foods`
sections when they are arrays (skipping them silently otherwise), then, when
a `settings` object is present, write it through the settings repository's
`update` path. -/
def DataExportRepository.importData (fuel now : ℕ) (d : ExportData)
    (st : AppState) : Res AppState :=
  let st1 := DataExportRepository.clearAllData st
  match (match d.exercises with
         | .arr l => importRawExercises l st1.exercises
         | .nonArray => .ok st1.exercises) with
  | .error e => .err e
  | .ok exSt =>
    match (match d.foods with
           | .arr l => importRawFoods l st1.foods
           | .nonArray => .ok st1.foods) with
    | .error e => .err e
    | .ok fdSt =>
      match d.settings with
      | none => .ok ⟨exSt, fdSt, st1.settings⟩
      | some s =>
        (UserSettingsRepository.update fuel now
          ⟨some s.dailyCalorieGoal, some s.weightUnit, some s.theme,
            some (jsNewDate s.updatedAt)⟩ st1.settings).bind
          fun pr => .ok ⟨exSt, fdSt, pr.2⟩

/-- The export/import round trip of the idempotence property:
`importData(exportData())`. -/
def DataExportRepository.roundTrip (fuel now : ℕ) (st : AppState) :
    Res AppState :=
  (DataExportRepository.exportData fuel now st).bind fun pr =>
    DataExportRepository.importData fuel now pr.1 pr.2

/-- Well-formedness of a dataset: store keys are the record ids and are
duplicate-free, and every stored date text parses back. -/
def AppStateWF (st : AppState) : Prop :=
  (st.exercises.map Prod.fst).Nodup ∧
  (∀ p ∈ st.exercises, p.1 = p.2.id ∧ rawExOk p.2 = true) ∧
  (st.foods.map Prod.fst).Nodup ∧
  (∀ p ∈ st.foods, p.1 = p.2.id ∧ rawFoodOk p.2 = true) ∧
  (∀ p ∈ st.settings, (parseIso p.2.updatedAt).isSome = true)

instance (st : AppState) : Decidable (AppStateWF st) := by
  unfold AppStateWF; infer_instance

/-! ## Storage factory (FoodRepository.ts lines 147–231) -/

/-- Storage type indicator. -/
inductive StorageType where
  | indexeddb
  | localstorage
  | nostorage
deriving DecidableEq, Repr

/-- Runtime context: whether `window` exists and whether `indexedDB` is a
property of it. -/
structure BrowserEnv where
  hasWindow : Bool
  hasIndexedDB : Bool
deriving DecidableEq, Repr

/-- `isIndexedDBAvailable`: `typeof window !== 'undefined' && 'indexedDB' in
window`. -/
def isIndexedDBAvailable (e : BrowserEnv) : Bool :=
  e.hasWindow && e.hasIndexedDB

/-- `detectStorageType` (lines 155–164). -/
def detectStorageType (e : BrowserEnv) : StorageType :=
  if !e.hasWindow then .nostorage
  else if isIndexedDBAvailable e then .indexeddb
  else .localstorage

/-- Backend module the `ExerciseRepository` class is bound to: the static
`import * as db from './indexedDB'` at `ExerciseRepository.ts` line 10. -/
def exerciseRepoModule : StorageType := .indexeddb

/-- Backend module of the `FoodRepository` class (same static import). -/
def foodRepoModule : StorageType := .indexeddb

/-- Backend module of the `UserSettingsRepository` class. -/
def settingsRepoModule : StorageType := .indexeddb

/-- Backend module of the `DataExportRepository` class
(`src/unnamed/part_009` line 11). -/
def exportRepoModule : StorageType := .indexeddb

/-- The repository container: the four constructed instances, observed here
through the backend each one is bound to, plus the recorded storage type. -/
structure RepositoryContainer where
  exerciseBackend : StorageType
  foodBackend : StorageType
  settingsBackend : StorageType
  exportBackend : StorageType
  storageType : StorageType
deriving DecidableEq, Repr

/-- `createRepositories` (lines 210–224): the module-level memo cell is the
explicit `Option RepositoryContainer` state; a populated cell is returned
as-is, otherwise the container is built once and cached. -/
def createRepositories (e : BrowserEnv) :
    Option RepositoryContainer → RepositoryContainer × Option RepositoryContainer
  | some c => (c, some c)
  | none =>
    let c : RepositoryContainer :=
      { exerciseBackend := exerciseRepoModule
        foodBackend := foodRepoModule
        settingsBackend := settingsRepoModule
        exportBackend := exportRepoModule
        storageType := detectStorageType e }
    (c, some c)

/-- `getRepositories` (lines 229–231): delegates to `createRepositories`. -/
def getRepositories (e : BrowserEnv)
    (cell : Option RepositoryContainer) :
    RepositoryContainer × Option RepositoryContainer :=
  createRepositories e cell

/-! ## Generic engine records and the backend-parity operation machine -/

/-- Generic stored record of the engine contract: an id plus string-valued
attributes (the shapes the date/name/mealType indexes are declared on). -/
structure GRec where
  id : String
  attrs : List (String × String)
deriving DecidableEq, Repr

/-- Primary key of a generic record. -/
def gKey (r : GRec) : String := r.id

/-- Property access `item[idx]` on a generic record. -/
def gFld (r : GRec) (idx : String) : Option String :=
  if idx = "id" then some r.id else alookup idx r.attrs

/-- The engine operation surface shared by both backends. -/
inductive EngineOp where
  | getById (id : String)
  | getAll
  | getByIndex (idx v : String)
  | getByIndexRange (idx lo hi : String)
  | add (r : GRec)
  | update (r : GRec)
  | deleteById (id : String)
  | clearStore
deriving DecidableEq, Repr

/-- Observable result of one engine operation. -/
inductive EngineOut where
  | found (r : Option GRec)
  | many (rs : List GRec)
  | stored (r : GRec)
  | done
deriving DecidableEq, Repr

/-- One step of the localStorage backend; a thrown `add` leaves the stored
text untouched. -/
def lsStep (t : StoredText GRec) :
    EngineOp → Except StorageErr EngineOut × StoredText GRec
  | .getById id => (.ok (.found (lsGetById t id)), t)
  | .getAll => (.ok (.many (lsGetAll t)), t)
  | .getByIndex idx v => (.ok (.many (lsGetByIndex gFld t idx v)), t)
  | .getByIndexRange idx lo hi =>
    (.ok (.many (lsGetByIndexRange gFld t idx lo hi)), t)
  | .add r =>
    match lsAdd gKey t r with
    | .error e => (.error e, t)
    | .ok t' => (.ok (.stored r), t')
  | .update r => (.ok (.stored r), lsUpdate gKey t r)
  | .deleteById id => (.ok .done, lsDeleteById t id)
  | .clearStore => (.ok .done, lsClearStore t)

/-- One step of the IndexedDB backend. -/
def idbStep (st : List (String × GRec)) :
    EngineOp → Except StorageErr EngineOut × List (String × GRec)
  | .getById id => (.ok (.found (idbGetById st id)), st)
  | .getAll => (.ok (.many (idbGetAll st)), st)
  | .getByIndex idx v => (.ok (.many (idbGetByIndex gFld st idx v)), st)
  | .getByIndexRange idx lo hi =>
    (.ok (.many (idbGetByIndexRange gFld st idx lo hi)), st)
  | .add r =>
    match idbAdd gKey st r with
    | .error e => (.error e, st)
    | .ok st' => (.ok (.stored r), st')
  | .update r => (.ok (.stored r), idbPut gKey st r)
  | .deleteById id => (.ok .done, idbDeleteById st id)
  | .clearStore => (.ok .done, idbClearStore)

/-- Run an operation sequence on the localStorage backend, collecting every
operation's result (an error does not stop the sequence: it is surfaced to
the caller, who may keep issuing operations). -/
def lsRun : List EngineOp → StoredText GRec →
    List (Except StorageErr EngineOut) × StoredText GRec
  | [], t => ([], t)
  | op :: ops, t =>
    let s := lsStep t op
    let rest := lsRun ops s.2
    (s.1 :: rest.1, rest.2)

/-- Run an operation sequence on the IndexedDB backend. -/
def idbRun : List EngineOp → List (String × GRec) →
    List (Except StorageErr EngineOut) × List (String × GRec)
  | [], st => ([], st)
  | op :: ops, st =>
    let s := idbStep st op
    let rest := idbRun ops s.2
    (s.1 :: rest.1, rest.2)

/-- Observational equivalence of one operation's results: identical errors
and identical values, except that multi-record reads are compared as
multisets (the contract returns them unordered). -/
def outEquiv : Except StorageErr EngineOut → Except StorageErr EngineOut → Prop
  | .ok (.many rs), .ok (.many rs') => rs.Perm rs'
  | o, o' => o = o'

/-- Date filter of the repository range query, on entities. -/
def dateInRange (d1 d2 : ℕ) (e : Exercise) : Bool :=
  match e.date with
  | some t => decide (startOfDay d1 ≤ t) && decide (t ≤ endOfDay d2)
  | none => false

/-- Net effect of parsing a stored exercise and serializing it again (the
export path): each date text is re-rendered from its parsed value. -/
def reSerEx (r : RawExercise) : RawExercise :=
  { r with
      date := pad17 ((parseIso r.date).getD 0)
      createdAt := pad17 ((parseIso r.createdAt).getD 0)
      updatedAt := pad17 ((parseIso r.updatedAt).getD 0) }

/-- Net effect of parsing a stored food record and serializing it again. -/
def reSerFood (r : RawFood) : RawFood :=
  { r with
      date := pad17 ((parseIso r.date).getD 0)
      createdAt := pad17 ((parseIso r.createdAt).getD 0)
      updatedAt := pad17 ((parseIso r.updatedAt).getD 0) }

/-! ## Helper lemmas: digits, lexicographic order, parsing -/

theorem digitChar_lt_iff :
    ∀ a < 10, ∀ b < 10, (Nat.digitChar a < Nat.digitChar b ↔ a < b) := by
  decide

theorem digitChar_eq_iff :
    ∀ a < 10, ∀ b < 10, (Nat.digitChar a = Nat.digitChar b ↔ a = b) := by
  decide

theorem digitVal_digitChar : ∀ a < 10, digitVal (Nat.digitChar a) = a := by
  decide

theorem isDigit_digitChar : ∀ a < 10, isDigit (Nat.digitChar a) = true := by
  decide

theorem digitChars_length : ∀ k n, (digitChars k n).length = k := by
  intro k
  induction k with
  | zero => intro n; rfl
  | succ k ih => intro n; simp [digitChars, ih]

theorem digitChars_all_isDigit :
    ∀ k n, n < 10 ^ k → (digitChars k n).all isDigit = true := by
  intro k
  induction k with
  | zero => intro n _; rfl
  | succ k ih =>
    intro n hn
    have hq : n / 10 ^ k < 10 := by
      apply Nat.div_lt_of_lt_mul
      calc n < 10 ^ (k + 1) := hn
        _ = 10 ^ k * 10 := by ring
    have hr : n % 10 ^ k < 10 ^ k := Nat.mod_lt _ (Nat.pos_pow_of_pos k (by omega))
    simp only [digitChars, List.all_cons, Bool.and_eq_true]
    exact ⟨isDigit_digitChar _ hq, ih _ hr⟩

theorem lexLe_digitChars :
    ∀ k n m, n < 10 ^ k → m < 10 ^ k →
      lexLe (digitChars k n) (digitChars k m) = decide (n ≤ m) := by
  intro k
  induction k with
  | zero =>
    intro n m hn hm
    interval_cases n
    interval_cases m
    rfl
  | succ k ih =>
    intro n m hn hm
    have hB : 0 < 10 ^ k := Nat.pos_pow_of_pos k (by omega)
    have hqn : n / 10 ^ k < 10 := by
      apply Nat.div_lt_of_lt_mul
      calc n < 10 ^ (k + 1) := hn
        _ = 10 ^ k * 10 := by ring
    have hqm : m / 10 ^ k < 10 := by
      apply Nat.div_lt_of_lt_mul
      calc m < 10 ^ (k + 1) := hm
        _ = 10 ^ k * 10 := by ring
    have hrn : n % 10 ^ k < 10 ^ k := Nat.mod_lt _ hB
    have hrm : m % 10 ^ k < 10 ^ k := Nat.mod_lt _ hB
    have hne : 10 ^ k * (n / 10 ^ k) + n % 10 ^ k = n := Nat.div_add_mod n (10 ^ k)
    have hme : 10 ^ k * (m / 10 ^ k) + m % 10 ^ k = m := Nat.div_add_mod m (10 ^ k)
    simp only [digitChars, lexLe]
    by_cases hq : n / 10 ^ k = m / 10 ^ k
    · have hceq : Nat.digitChar (n / 10 ^ k) = Nat.digitChar (m / 10 ^ k) := by
        rw [hq]
      rw [if_pos hceq, ih _ _ hrn hrm]
      have hne' : 10 ^ k * (m / 10 ^ k) + n % 10 ^ k = n := by
        rw [← hq]; exact hne
      have : (n ≤ m) ↔ (n % 10 ^ k ≤ m % 10 ^ k) := by omega
      simp [this]
    · have hcne : ¬ Nat.digitChar (n / 10 ^ k) = Nat.digitChar (m / 10 ^ k) := by
        intro hc
        exact hq ((digitChar_eq_iff _ hqn _ hqm).mp hc)
      rw [if_neg hcne]
      have hlt : (Nat.digitChar (n / 10 ^ k) < Nat.digitChar (m / 10 ^ k)) ↔
          (n / 10 ^ k < m / 10 ^ k) := digitChar_lt_iff _ hqn _ hqm
      have key : (n / 10 ^ k < m / 10 ^ k) ↔ (n ≤ m) := by
        constructor
        · intro h
          have h1 : n / 10 ^ k + 1 ≤ m / 10 ^ k := h
          have h2 : 10 ^ k * (n / 10 ^ k + 1) ≤ 10 ^ k * (m / 10 ^ k) :=
            Nat.mul_le_mul_left _ h1
          rw [Nat.mul_succ] at h2
          omega
        · intro h
          rcases Nat.lt_or_ge (n / 10 ^ k) (m / 10 ^ k) with h' | h'
          · exact h'
          · exfalso
            have h'' : m / 10 ^ k < n / 10 ^ k := by
              rcases Nat.lt_or_ge (m / 10 ^ k) (n / 10 ^ k) with hx | hx
              · exact hx
              · exact absurd (Nat.le_antisymm hx h') hq
            have h1 : m / 10 ^ k + 1 ≤ n / 10 ^ k := h''
            have h2 : 10 ^ k * (m / 10 ^ k + 1) ≤ 10 ^ k * (n / 10 ^ k) :=
              Nat.mul_le_mul_left _ h1
            rw [Nat.mul_succ] at h2
            omega
      simp only [decide_eq_decide]
      rw [hlt, key]

theorem foldl_digitChars :
    ∀ k n a, n < 10 ^ k →
      (digitChars k n).foldl (fun acc c => acc * 10 + digitVal c) a =
        a * 10 ^ k + n := by
  intro k
  induction k with
  | zero =>
    intro n a hn
    interval_cases n
    simp [digitChars]
  | succ k ih =>
    intro n a hn
    have hq : n / 10 ^ k < 10 := by
      apply Nat.div_lt_of_lt_mul
      calc n < 10 ^ (k + 1) := hn
        _ = 10 ^ k * 10 := by ring
    have hr : n % 10 ^ k < 10 ^ k :=
      Nat.mod_lt _ (Nat.pos_pow_of_pos k (by omega))
    have hne : 10 ^ k * (n / 10 ^ k) + n % 10 ^ k = n := Nat.div_add_mod n (10 ^ k)
    simp only [digitChars, List.foldl_cons]
    rw [digitVal_digitChar _ hq, ih _ _ hr]
    have : (a * 10 + n / 10 ^ k) * 10 ^ k = a * 10 ^ (k + 1) + 10 ^ k * (n / 10 ^ k) := by
      ring
    omega

theorem parseIso_pad17 (t : ℕ) (h : t < jsTimeBound) :
    parseIso (pad17 t) = some t := by
  have h' : t < 10 ^ 17 := h
  have hlen : (pad17 t).data.length = 17 := digitChars_length 17 t
  have hdig : (pad17 t).data.all isDigit = true := digitChars_all_isDigit 17 t h'
  unfold parseIso
  rw [if_pos ⟨hlen, hdig⟩]
  have hdata : (pad17 t).data = digitChars 17 t := rfl
  rw [hdata, foldl_digitChars 17 t 0 h']
  simp

theorem strLe_pad17 (a b : ℕ) (ha : a < jsTimeBound) (hb : b < jsTimeBound) :
    strLe (pad17 a) (pad17 b) = decide (a ≤ b) := by
  unfold strLe pad17
  exact lexLe_digitChars 17 a b ha hb

theorem toISOString_some (t : ℕ) (h : t < jsTimeBound) :
    toISOString (some t) = some (pad17 t) := by
  simp [toISOString, h]

theorem digitVal_le_9 (c : Char) (h : isDigit c = true) : digitVal c ≤ 9 := by
  unfold isDigit at h
  simp only [Bool.and_eq_true, decide_eq_true_eq] at h
  unfold digitVal
  omega

theorem foldl_digits_lt :
    ∀ (cs : List Char) (a : ℕ), cs.all isDigit = true →
      cs.foldl (fun acc c => acc * 10 + digitVal c) a < (a + 1) * 10 ^ cs.length := by
  intro cs
  induction cs with
  | nil => intro a _; simp
  | cons c rest ih =>
    intro a h
    simp only [List.all_cons, Bool.and_eq_true] at h
    have hc : digitVal c ≤ 9 := digitVal_le_9 c h.1
    have := ih (a * 10 + digitVal c) h.2
    simp only [List.foldl_cons, List.length_cons]
    calc List.foldl (fun acc c => acc * 10 + digitVal c) (a * 10 + digitVal c) rest
        < (a * 10 + digitVal c + 1) * 10 ^ rest.length := this
      _ ≤ ((a + 1) * 10) * 10 ^ rest.length := by
          apply Nat.mul_le_mul_right
          omega
      _ = (a + 1) * 10 ^ (rest.length + 1) := by ring

theorem parseIso_lt (s : String) (t : ℕ) (h : parseIso s = some t) :
    t < jsTimeBound := by
  unfold parseIso at h
  by_cases hc : s.data.length = 17 ∧ s.data.all isDigit = true
  · rw [if_pos hc] at h
    have hlt := foldl_digits_lt s.data 0 hc.2
    rw [hc.1] at hlt
    simp only [Nat.zero_add, Nat.one_mul] at hlt
    simp only [Option.some.injEq] at h
    unfold jsTimeBound
    omega
  · rw [if_neg hc] at h
    exact absurd h (by simp)

/-! ## Helper lemmas: serialization -/

theorem toISOString_of_ok (d : Option ℕ) (h : jdateOk d = true) :
    toISOString d = some (pad17 (d.getD 0)) := by
  match d with
  | none => simp [jdateOk] at h
  | some t =>
    simp only [jdateOk, decide_eq_true_eq] at h
    simp [toISOString, h]

theorem jdateOk_parse_pad (d : Option ℕ) (h : jdateOk d = true) :
    jsNewDate (pad17 (d.getD 0)) = d := by
  match d with
  | none => simp [jdateOk] at h
  | some t =>
    simp only [jdateOk, decide_eq_true_eq] at h
    simp [jsNewDate, parseIso_pad17 t h]

theorem jdateOk_parseIso (s : String) (h : (parseIso s).isSome = true) :
    jdateOk (parseIso s) = true := by
  rcases hp : parseIso s with _ | t
  · rw [hp] at h; simp at h
  · simp [jdateOk, parseIso_lt s t hp]

theorem exercise_serialize_eq_serializeV (e : Exercise)
    (h : exerciseOk e = true) :
    ExerciseRepository.serialize e = some (ExerciseRepository.serializeV e) := by
  simp only [exerciseOk, Bool.and_eq_true] at h
  obtain ⟨⟨h1, h2⟩, h3⟩ := h
  unfold ExerciseRepository.serialize ExerciseRepository.serializeV
  rw [toISOString_of_ok _ h1, toISOString_of_ok _ h2, toISOString_of_ok _ h3]

theorem exercise_deserialize_serializeV (e : Exercise)
    (h : exerciseOk e = true) :
    ExerciseRepository.deserialize (ExerciseRepository.serializeV e) = e := by
  simp only [exerciseOk, Bool.and_eq_true] at h
  obtain ⟨⟨h1, h2⟩, h3⟩ := h
  unfold ExerciseRepository.deserialize ExerciseRepository.serializeV
  simp only [jdateOk_parse_pad _ h1, jdateOk_parse_pad _ h2, jdateOk_parse_pad _ h3]

theorem food_serialize_eq_serializeV (f : FoodEntry)
    (h : foodOk f = true) :
    FoodRepository.serialize f = some (FoodRepository.serializeV f) := by
  simp only [foodOk, Bool.and_eq_true] at h
  obtain ⟨⟨h1, h2⟩, h3⟩ := h
  unfold FoodRepository.serialize FoodRepository.serializeV
  rw [toISOString_of_ok _ h1, toISOString_of_ok _ h2, toISOString_of_ok _ h3]

theorem food_deserialize_serializeV (f : FoodEntry)
    (h : foodOk f = true) :
    FoodRepository.deserialize (FoodRepository.serializeV f) = f := by
  simp only [foodOk, Bool.and_eq_true] at h
  obtain ⟨⟨h1, h2⟩, h3⟩ := h
  unfold FoodRepository.deserialize FoodRepository.serializeV
  simp only [jdateOk_parse_pad _ h1, jdateOk_parse_pad _ h2, jdateOk_parse_pad _ h3]

theorem settings_deserialize_serialize (s : UserSettings)
    (h : jdateOk s.updatedAt = true) :
    (UserSettingsRepository.serialize s).map UserSettingsRepository.deserialize =
      some s := by
  unfold UserSettingsRepository.serialize
  rw [toISOString_of_ok _ h]
  simp only [Option.map_some', Option.map_map, Option.some.injEq]
  unfold UserSettingsRepository.deserialize
  simp only [jdateOk_parse_pad _ h]

theorem reSerEx_spec (r : RawExercise) (h : rawExOk r = true) :
    ExerciseRepository.serialize (ExerciseRepository.deserialize r) =
        some (reSerEx r) ∧
      rawExOk (reSerEx r) = true ∧ (reSerEx r).id = r.id := by
  simp only [rawExOk, Bool.and_eq_true] at h
  obtain ⟨⟨h1, h2⟩, h3⟩ := h
  have k1 := jdateOk_parseIso _ h1
  have k2 := jdateOk_parseIso _ h2
  have k3 := jdateOk_parseIso _ h3
  refine ⟨?_, ?_, rfl⟩
  · unfold ExerciseRepository.serialize ExerciseRepository.deserialize
    simp only [jsNewDate]
    rw [toISOString_of_ok _ k1, toISOString_of_ok _ k2, toISOString_of_ok _ k3]
    rfl
  · rcases hp1 : parseIso r.date with _ | t1
    · rw [hp1] at h1; simp at h1
    · rcases hp2 : parseIso r.createdAt with _ | t2
      · rw [hp2] at h2; simp at h2
      · rcases hp3 : parseIso r.updatedAt with _ | t3
        · rw [hp3] at h3; simp at h3
        · simp only [rawExOk, reSerEx, hp1, hp2, hp3, Option.getD_some,
            Bool.and_eq_true]
          refine ⟨⟨?_, ?_⟩, ?_⟩
          · rw [parseIso_pad17 t1 (parseIso_lt _ _ hp1)]; rfl
          · rw [parseIso_pad17 t2 (parseIso_lt _ _ hp2)]; rfl
          · rw [parseIso_pad17 t3 (parseIso_lt _ _ hp3)]; rfl

theorem reSerFood_spec (r : RawFood) (h : rawFoodOk r = true) :
    FoodRepository.serialize (FoodRepository.deserialize r) =
        some (reSerFood r) ∧
      rawFoodOk (reSerFood r) = true ∧ (reSerFood r).id = r.id := by
  simp only [rawFoodOk, Bool.and_eq_true] at h
  obtain ⟨⟨h1, h2⟩, h3⟩ := h
  have k1 := jdateOk_parseIso _ h1
  have k2 := jdateOk_parseIso _ h2
  have k3 := jdateOk_parseIso _ h3
  refine ⟨?_, ?_, rfl⟩
  · unfold FoodRepository.serialize FoodRepository.deserialize
    simp only [jsNewDate]
    rw [toISOString_of_ok _ k1, toISOString_of_ok _ k2, toISOString_of_ok _ k3]
    rfl
  · rcases hp1 : parseIso r.date with _ | t1
    · rw [hp1] at h1; simp at h1
    · rcases hp2 : parseIso r.createdAt with _ | t2
      · rw [hp2] at h2; simp at h2
      · rcases hp3 : parseIso r.updatedAt with _ | t3
        · rw [hp3] at h3; simp at h3
        · simp only [rawFoodOk, reSerFood, hp1, hp2, hp3, Option.getD_some,
            Bool.and_eq_true]
          refine ⟨⟨?_, ?_⟩, ?_⟩
          · rw [parseIso_pad17 t1 (parseIso_lt _ _ hp1)]; rfl
          · rw [parseIso_pad17 t2 (parseIso_lt _ _ hp2)]; rfl
          · rw [parseIso_pad17 t3 (parseIso_lt _ _ hp3)]; rfl

/-! ## Helper lemmas: association lists and permutations -/

theorem alookup_eq_none_iff {β : Type} (k : String) :
    ∀ l : List (String × β), alookup k l = none ↔ k ∉ l.map Prod.fst := by
  intro l
  induction l with
  | nil => simp [alookup]
  | cons p ps ih =>
    simp only [alookup, List.map_cons, List.mem_cons]
    by_cases h : p.1 = k
    · simp [h]
    · simp only [if_neg h, ih]
      constructor
      · intro hn hc
        rcases hc with hc | hc
        · exact h hc.symm
        · exact hn hc
      · intro hn
        intro hc
        exact hn (Or.inr hc)

theorem alookup_isSome_iff {β : Type} (k : String) (l : List (String × β)) :
    (alookup k l).isSome = true ↔ k ∈ l.map Prod.fst := by
  rcases h : alookup k l with _ | v
  · rw [alookup_eq_none_iff] at h
    simp [h]
  · simp only [Option.isSome_some, true_iff]
    by_contra hc
    rw [← alookup_eq_none_iff] at hc
    rw [hc] at h
    cases h

theorem insertSorted_perm {β : Type} (le : β → β → Bool) (a : β) :
    ∀ l : List β, (insertSorted le a l).Perm (a :: l) := by
  intro l
  induction l with
  | nil => exact List.Perm.refl _
  | cons b bs ih =>
    unfold insertSorted
    by_cases h : le a b = true
    · rw [if_pos h]
    · rw [if_neg h]
      exact (ih.cons b).trans (List.Perm.swap a b bs)

theorem alookup_append_self {β : Type} (k : String) (r : β) :
    ∀ l : List (String × β), alookup k l = none →
      alookup k (l ++ [(k, r)]) = some r := by
  intro l
  induction l with
  | nil => intro _; simp [alookup]
  | cons p ps ih =>
    intro h
    simp only [alookup] at h ⊢
    by_cases hp : p.1 = k
    · rw [if_pos hp] at h; cases h
    · rw [if_neg hp] at h ⊢
      exact ih h

theorem alookup_insertSorted_self {β : Type} (k : String) (r : β) :
    ∀ l : List (String × β), alookup k l = none →
      alookup k (insertSorted pairKeyLe (k, r) l) = some r := by
  intro l
  induction l with
  | nil => intro _; simp [insertSorted, alookup]
  | cons p ps ih =>
    intro h
    simp only [alookup] at h
    by_cases hp : p.1 = k
    · rw [if_pos hp] at h; cases h
    · rw [if_neg hp] at h
      unfold insertSorted
      by_cases hle : pairKeyLe (k, r) p = true
      · rw [if_pos hle]; simp [alookup]
      · rw [if_neg hle]
        simp only [alookup, if_neg hp]
        exact ih h

theorem alookup_perm {β : Type} (k : String) {l l' : List (String × β)}
    (hp : l.Perm l') (hn : (l.map Prod.fst).Nodup) :
    alookup k l = alookup k l' := by
  induction hp with
  | nil => rfl
  | cons x _ ih =>
    simp only [alookup]
    by_cases hx : x.1 = k
    · rw [if_pos hx, if_pos hx]
    · rw [if_neg hx, if_neg hx]
      exact ih ((List.nodup_cons.mp hn).2)
  | swap x y l₀ =>
    have hxy : y.1 ≠ x.1 := by
      simp only [List.map_cons, List.nodup_cons, List.mem_cons] at hn
      intro hc
      exact hn.1 (Or.inl hc)
    by_cases hy : y.1 = k
    · have hx : ¬ x.1 = k := by
        intro hc
        exact hxy (hy.trans hc.symm)
      simp [alookup, hy, hx]
    · by_cases hx : x.1 = k
      · simp [alookup, hy, hx]
      · simp [alookup, hy, hx]
  | trans h12 _ ih12 ih23 =>
    exact (ih12 hn).trans (ih23 ((h12.map Prod.fst).nodup hn))

theorem map_fst_replace {β : Type} (k : String) (r : β) :
    ∀ l : List (String × β),
      ((l.map fun p => if p.1 = k then (k, r) else p).map Prod.fst) =
        l.map Prod.fst := by
  intro l
  induction l with
  | nil => rfl
  | cons p ps ih =>
    simp only [List.map_cons, List.cons.injEq]
    constructor
    · by_cases h : p.1 = k
      · rw [if_pos h]; exact h.symm
      · rw [if_neg h]
    · exact ih

theorem replace_perm {β : Type} (k : String) (r : β)
    {l l' : List (String × β)} (hp : l.Perm l') :
    (l.map fun p => if p.1 = k then (k, r) else p).Perm
      (l'.map fun p => if p.1 = k then (k, r) else p) :=
  hp.map _

/-! ## Helper lemmas: the settings repository diverges on an absent record -/

theorem settings_absent_spin (now : ℕ) (st : List (String × RawSettings))
    (h : idbGetById st SETTINGS_ID = none) :
    ∀ fuel, UserSettingsRepository.get fuel now st = .spin ∧
      ∀ p, UserSettingsRepository.update fuel now p st = .spin := by
  intro fuel
  induction fuel with
  | zero =>
    constructor
    · simp only [UserSettingsRepository.get, h]
    · intro p
      simp only [UserSettingsRepository.update]
  | succ f ih =>
    constructor
    · simp only [UserSettingsRepository.get, h, ih.2 defaultSettingsPatch]
      rfl
    · intro p
      simp only [UserSettingsRepository.update, ih.1]
      rfl

/-! ## Helper lemmas: maps, day bounds, the import loops -/

theorem optionMapList_eq_map {α β : Type} (f : α → Option β) (g : α → β) :
    ∀ l : List α, (∀ x ∈ l, f x = some (g x)) →
      optionMapList f l = some (l.map g) := by
  intro l
  induction l with
  | nil => intro _; rfl
  | cons a as ih =>
    intro h
    simp only [optionMapList, h a (List.mem_cons_self a as),
      ih fun x hx => h x (List.mem_cons_of_mem a hx), List.map_cons]

theorem startOfDay_le (t : ℕ) : startOfDay t ≤ t :=
  Nat.div_mul_le_self t dayMillis

theorem le_endOfDay (t : ℕ) : t ≤ endOfDay t := by
  unfold endOfDay startOfDay dayMillis
  omega

theorem importRawExercises_ok :
    ∀ (l : List RawExercise) (st : List (String × RawExercise)),
      (∀ r ∈ l, rawExOk r = true) →
      (l.map RawExercise.id ++ st.map Prod.fst).Nodup →
      ∃ st', importRawExercises l st = .ok st' := by
  intro l
  induction l with
  | nil => intro st _ _; exact ⟨st, rfl⟩
  | cons ex rest ih =>
    intro st hok hnd
    obtain ⟨hser, hok', hid⟩ := reSerEx_spec ex (hok ex (by simp))
    have hnd0 : (ex.id :: (rest.map RawExercise.id ++ st.map Prod.fst)).Nodup := by
      simpa using hnd
    have hnotin : ex.id ∉ st.map Prod.fst := by
      have := (List.nodup_cons.mp hnd0).1
      intro hc
      exact this (List.mem_append.mpr (Or.inr hc))
    have hlook : alookup (RawExercise.id (reSerEx ex)) st = none := by
      rw [hid, alookup_eq_none_iff]
      exact hnotin
    have hstep : ExerciseRepository.createIDB (ExerciseRepository.deserialize ex) st =
        .ok (ExerciseRepository.deserialize ex,
          insertSorted pairKeyLe ((reSerEx ex).id, reSerEx ex) st) := by
      unfold ExerciseRepository.createIDB idbAdd
      rw [hser]
      simp [hlook, Except.map]
    have hperm : ((insertSorted pairKeyLe ((reSerEx ex).id, reSerEx ex) st).map
        Prod.fst).Perm (ex.id :: st.map Prod.fst) := by
      have hp := (insertSorted_perm pairKeyLe ((reSerEx ex).id, reSerEx ex) st).map
        Prod.fst
      rw [List.map_cons] at hp
      rw [← hid]
      exact hp
    have hnd' : (rest.map RawExercise.id ++
        (insertSorted pairKeyLe ((reSerEx ex).id, reSerEx ex) st).map
          Prod.fst).Nodup := by
      have p1 := List.Perm.append_left (rest.map RawExercise.id) hperm
      have p2 : (rest.map RawExercise.id ++ (ex.id :: st.map Prod.fst)).Perm
          (ex.id :: (rest.map RawExercise.id ++ st.map Prod.fst)) :=
        List.perm_middle
      exact ((p1.trans p2).symm).nodup hnd0
    obtain ⟨st', hst'⟩ := ih _ (fun r hr => hok r (by simp [hr])) hnd'
    refine ⟨st', ?_⟩
    unfold importRawExercises
    rw [hstep]
    exact hst'

theorem importRawFoods_ok :
    ∀ (l : List RawFood) (st : List (String × RawFood)),
      (∀ r ∈ l, rawFoodOk r = true) →
      (l.map RawFood.id ++ st.map Prod.fst).Nodup →
      ∃ st', importRawFoods l st = .ok st' := by
  intro l
  induction l with
  | nil => intro st _ _; exact ⟨st, rfl⟩
  | cons f rest ih =>
    intro st hok hnd
    obtain ⟨hser, hok', hid⟩ := reSerFood_spec f (hok f (by simp))
    have hnd0 : (f.id :: (rest.map RawFood.id ++ st.map Prod.fst)).Nodup := by
      simpa using hnd
    have hnotin : f.id ∉ st.map Prod.fst := by
      have := (List.nodup_cons.mp hnd0).1
      intro hc
      exact this (List.mem_append.mpr (Or.inr hc))
    have hlook : alookup (RawFood.id (reSerFood f)) st = none := by
      rw [hid, alookup_eq_none_iff]
      exact hnotin
    have hstep : FoodRepository.createIDB (FoodRepository.deserialize f) st =
        .ok (FoodRepository.deserialize f,
          insertSorted pairKeyLe ((reSerFood f).id, reSerFood f) st) := by
      unfold FoodRepository.createIDB idbAdd
      rw [hser]
      simp [hlook, Except.map]
    have hperm : ((insertSorted pairKeyLe ((reSerFood f).id, reSerFood f) st).map
        Prod.fst).Perm (f.id :: st.map Prod.fst) := by
      have hp := (insertSorted_perm pairKeyLe ((reSerFood f).id, reSerFood f) st).map
        Prod.fst
      rw [List.map_cons] at hp
      rw [← hid]
      exact hp
    have hnd' : (rest.map RawFood.id ++
        (insertSorted pairKeyLe ((reSerFood f).id, reSerFood f) st).map
          Prod.fst).Nodup := by
      have p1 := List.Perm.append_left (rest.map RawFood.id) hperm
      have p2 : (rest.map RawFood.id ++ (f.id :: st.map Prod.fst)).Perm
          (f.id :: (rest.map RawFood.id ++ st.map Prod.fst)) :=
        List.perm_middle
      exact ((p1.trans p2).symm).nodup hnd0
    obtain ⟨st', hst'⟩ := ih _ (fun r hr => hok r (by simp [hr])) hnd'
    refine ⟨st', ?_⟩
    unfold importRawFoods
    rw [hstep]
    exact hst'

theorem alookup_mem {β : Type} (k : String) (v : β) :
    ∀ l : List (String × β), alookup k l = some v → (k, v) ∈ l := by
  intro l
  induction l with
  | nil => intro h; cases h
  | cons p ps ih =>
    intro h
    simp only [alookup] at h
    by_cases hp : p.1 = k
    · rw [if_pos hp] at h
      have hv : p.2 = v := by
        injection h
      rw [← hp, ← hv]
      exact List.mem_cons_self p ps
    · rw [if_neg hp] at h
      exact List.mem_cons_of_mem p (ih h)

theorem exerciseOk_deserialize (r : RawExercise) (h : rawExOk r = true) :
    exerciseOk (ExerciseRepository.deserialize r) = true := by
  simp only [rawExOk, Bool.and_eq_true] at h
  simp only [exerciseOk, ExerciseRepository.deserialize, jsNewDate,
    Bool.and_eq_true]
  exact ⟨⟨jdateOk_parseIso _ h.1.1, jdateOk_parseIso _ h.1.2⟩,
    jdateOk_parseIso _ h.2⟩

theorem foodOk_deserialize (r : RawFood) (h : rawFoodOk r = true) :
    foodOk (FoodRepository.deserialize r) = true := by
  simp only [rawFoodOk, Bool.and_eq_true] at h
  simp only [foodOk, FoodRepository.deserialize, jsNewDate, Bool.and_eq_true]
  exact ⟨⟨jdateOk_parseIso _ h.1.1, jdateOk_parseIso _ h.1.2⟩,
    jdateOk_parseIso _ h.2⟩

theorem roundTrip_spin_of_wf (fuel now : ℕ) (st : AppState)
    (hnow : now < jsTimeBound) (hwf : AppStateWF st) :
    DataExportRepository.roundTrip fuel now st = .spin := by
  obtain ⟨hndE, hokE, hndF, hokF, hokS⟩ := hwf
  unfold DataExportRepository.roundTrip DataExportRepository.exportData
  rcases hs : idbGetById st.settings SETTINGS_ID with _ | raw
  · rw [(settings_absent_spin now st.settings hs fuel).1]
    rfl
  · have hget : UserSettingsRepository.get fuel now st.settings =
        .ok (UserSettingsRepository.deserialize raw, st.settings) := by
      cases fuel <;> simp [UserSettingsRepository.get, hs]
    rw [hget]
    have hrawE : ∀ r ∈ idbGetAll st.exercises, rawExOk r = true := by
      intro r hr
      obtain ⟨p, hp, hpr⟩ := List.mem_map.mp hr
      rw [← hpr]
      exact (hokE p hp).2
    have hrawF : ∀ r ∈ idbGetAll st.foods, rawFoodOk r = true := by
      intro r hr
      obtain ⟨p, hp, hpr⟩ := List.mem_map.mp hr
      rw [← hpr]
      exact (hokF p hp).2
    have hmapE : optionMapList ExerciseRepository.serialize
        (ExerciseRepository.getAllIDB st.exercises) =
        some ((idbGetAll st.exercises).map reSerEx) := by
      unfold ExerciseRepository.getAllIDB
      have hcond : ∀ e ∈ (idbGetAll st.exercises).map ExerciseRepository.deserialize,
          ExerciseRepository.serialize e = some (ExerciseRepository.serializeV e) := by
        intro e he
        obtain ⟨r, hr, hre⟩ := List.mem_map.mp he
        rw [← hre]
        exact exercise_serialize_eq_serializeV _
          (exerciseOk_deserialize r (hrawE r hr))
      rw [optionMapList_eq_map ExerciseRepository.serialize
        ExerciseRepository.serializeV _ hcond, List.map_map]
      congr 1
    have hmapF : optionMapList FoodRepository.serialize
        (FoodRepository.getAllIDB st.foods) =
        some ((idbGetAll st.foods).map reSerFood) := by
      unfold FoodRepository.getAllIDB
      have hcond : ∀ e ∈ (idbGetAll st.foods).map FoodRepository.deserialize,
          FoodRepository.serialize e = some (FoodRepository.serializeV e) := by
        intro e he
        obtain ⟨r, hr, hre⟩ := List.mem_map.mp he
        rw [← hre]
        exact food_serialize_eq_serializeV _
          (foodOk_deserialize r (hrawF r hr))
      rw [optionMapList_eq_map FoodRepository.serialize
        FoodRepository.serializeV _ hcond, List.map_map]
      congr 1
    have hsOk : (parseIso raw.updatedAt).isSome = true :=
      hokS (SETTINGS_ID, raw) (alookup_mem _ _ _ hs)
    have hsetIso : toISOString (UserSettingsRepository.deserialize raw).updatedAt =
        some (pad17 ((parseIso raw.updatedAt).getD 0)) := by
      unfold UserSettingsRepository.deserialize
      exact toISOString_of_ok _ (jdateOk_parseIso _ hsOk)
    have hnowIso : toISOString (some now) = some (pad17 now) :=
      toISOString_some now hnow
    simp only [Res.bind, hmapE, hmapF, hsetIso, hnowIso]
    unfold DataExportRepository.importData DataExportRepository.clearAllData
    have hidsE : ((idbGetAll st.exercises).map reSerEx).map RawExercise.id =
        st.exercises.map Prod.fst := by
      unfold idbGetAll
      rw [List.map_map, List.map_map]
      apply List.map_congr_left
      intro p hp
      show (reSerEx p.2).id = p.1
      rw [(reSerEx_spec p.2 ((hokE p hp).2)).2.2]
      exact ((hokE p hp).1).symm
    have hidsF : ((idbGetAll st.foods).map reSerFood).map RawFood.id =
        st.foods.map Prod.fst := by
      unfold idbGetAll
      rw [List.map_map, List.map_map]
      apply List.map_congr_left
      intro p hp
      show (reSerFood p.2).id = p.1
      rw [(reSerFood_spec p.2 ((hokF p hp).2)).2.2]
      exact ((hokF p hp).1).symm
    have hokE' : ∀ r ∈ (idbGetAll st.exercises).map reSerEx, rawExOk r = true := by
      intro r hr
      obtain ⟨r0, hr0, hrr⟩ := List.mem_map.mp hr
      rw [← hrr]
      exact (reSerEx_spec r0 (hrawE r0 hr0)).2.1
    have hokF' : ∀ r ∈ (idbGetAll st.foods).map reSerFood, rawFoodOk r = true := by
      intro r hr
      obtain ⟨r0, hr0, hrr⟩ := List.mem_map.mp hr
      rw [← hrr]
      exact (reSerFood_spec r0 (hrawF r0 hr0)).2.1
    have hndE' : (((idbGetAll st.exercises).map reSerEx).map RawExercise.id ++
        (List.map Prod.fst (idbClearStore : List (String × RawExercise)))).Nodup := by
      rw [hidsE]
      simpa [idbClearStore] using hndE
    have hndF' : (((idbGetAll st.foods).map reSerFood).map RawFood.id ++
        (List.map Prod.fst (idbClearStore : List (String × RawFood)))).Nodup := by
      rw [hidsF]
      simpa [idbClearStore] using hndF
    obtain ⟨stE, hstE⟩ :=
      importRawExercises_ok ((idbGetAll st.exercises).map reSerEx) idbClearStore
        hokE' hndE'
    obtain ⟨stF, hstF⟩ :=
      importRawFoods_ok ((idbGetAll st.foods).map reSerFood) idbClearStore
        hokF' hndF'
    simp only [hstE, hstF]
    rw [(settings_absent_spin now idbClearStore rfl fuel).2]
    rfl

/-! ## Helper lemmas: backend parity -/

theorem outEquiv_refl (o : Except StorageErr EngineOut) : outEquiv o o := by
  match o with
  | .ok (.many rs) => exact List.Perm.refl rs
  | .ok (.found r) => rfl
  | .ok (.stored r) => rfl
  | .ok .done => rfl
  | .error e => rfl

theorem outEquiv_many {rs rs' : List GRec} (h : rs.Perm rs') :
    outEquiv (.ok (.many rs)) (.ok (.many rs')) := h

theorem engineStep_parity (op : EngineOp) (t : StoredText GRec)
    (si : List (String × GRec)) (hperm : (getStoreData t).Perm si)
    (hnd : ((getStoreData t).map Prod.fst).Nodup) :
    outEquiv (lsStep t op).1 (idbStep si op).1 ∧
      (getStoreData (lsStep t op).2).Perm (idbStep si op).2 ∧
      ((getStoreData (lsStep t op).2).map Prod.fst).Nodup := by
  cases op with
  | getById id =>
    refine ⟨?_, hperm, hnd⟩
    show outEquiv (.ok (.found (lsGetById t id))) (.ok (.found (idbGetById si id)))
    rw [show lsGetById t id = idbGetById si id from alookup_perm id hperm hnd]
    exact outEquiv_refl _
  | getAll =>
    exact ⟨outEquiv_many (hperm.map Prod.snd), hperm, hnd⟩
  | getByIndex idx v =>
    exact ⟨outEquiv_many ((hperm.map Prod.snd).filter _), hperm, hnd⟩
  | getByIndexRange idx lo hi =>
    refine ⟨?_, hperm, hnd⟩
    have h1 : (lsGetByIndexRange gFld t idx lo hi).Perm
        ((si.map Prod.snd).filter fun r =>
          match gFld r idx with
          | some s => strLe lo s && strLe s hi
          | none => false) := (hperm.map Prod.snd).filter _
    have h2 := List.mergeSort_perm ((si.map Prod.snd).filter fun r =>
        match gFld r idx with
        | some s => strLe lo s && strLe s hi
        | none => false)
      fun r r' => strLe ((gFld r idx).getD "") ((gFld r' idx).getD "")
    exact outEquiv_many (h1.trans h2.symm)
  | add r =>
    have hl : alookup (gKey r) (getStoreData t) = alookup (gKey r) si :=
      alookup_perm _ hperm hnd
    cases hpres : (alookup (gKey r) (getStoreData t)).isSome with
    | true =>
      have hpresI : (alookup (gKey r) si).isSome = true := by
        rw [← hl]; exact hpres
      have hA : lsAdd gKey t r = .error .duplicateKey := by
        unfold lsAdd
        simp [hpres]
      have hB : idbAdd gKey si r = .error .duplicateKey := by
        unfold idbAdd
        simp [hpresI]
      refine ⟨?_, ?_, ?_⟩ <;> simp only [lsStep, idbStep, hA, hB]
      · exact outEquiv_refl _
      · exact hperm
      · exact hnd
    | false =>
      have hpresI : (alookup (gKey r) si).isSome = false := by
        rw [← hl]; exact hpres
      have hA : lsAdd gKey t r =
          .ok (.stored (getStoreData t ++ [(gKey r, r)])) := by
        unfold lsAdd
        simp [hpres]
      have hB : idbAdd gKey si r =
          .ok (insertSorted pairKeyLe (gKey r, r) si) := by
        unfold idbAdd
        simp [hpresI]
      have hnotin : gKey r ∉ (getStoreData t).map Prod.fst := by
        rw [← alookup_isSome_iff, hpres]
        simp
      have hcons : ((gKey r, r) :: getStoreData t).Perm
          (insertSorted pairKeyLe (gKey r, r) si) :=
        (hperm.cons _).trans (insertSorted_perm _ _ si).symm
      refine ⟨?_, ?_, ?_⟩ <;> simp only [lsStep, idbStep, hA, hB]
      · exact outEquiv_refl _
      · show (getStoreData t ++ [(gKey r, r)]).Perm _
        exact (List.perm_append_singleton _ _).trans hcons
      · show ((getStoreData t ++ [(gKey r, r)]).map Prod.fst).Nodup
        rw [List.map_append]
        refine ((List.perm_append_singleton _ _).symm).nodup ?_
        exact List.nodup_cons.mpr ⟨hnotin, hnd⟩
  | update r =>
    have hl : alookup (gKey r) (getStoreData t) = alookup (gKey r) si :=
      alookup_perm _ hperm hnd
    cases hpres : (alookup (gKey r) (getStoreData t)).isSome with
    | true =>
      have hpresI : (alookup (gKey r) si).isSome = true := by
        rw [← hl]; exact hpres
      have hA : lsUpdate gKey t r = .stored ((getStoreData t).map
          fun p => if p.1 = gKey r then (gKey r, r) else p) := by
        unfold lsUpdate
        simp [hpres]
      have hB : idbPut gKey si r = si.map
          fun p => if p.1 = gKey r then (gKey r, r) else p := by
        unfold idbPut
        simp [hpresI]
      refine ⟨?_, ?_, ?_⟩ <;> simp only [lsStep, idbStep, hA, hB]
      · exact outEquiv_refl _
      · exact hperm.map _
      · show (((getStoreData t).map fun p => if p.1 = gKey r then (gKey r, r)
          else p).map Prod.fst).Nodup
        rw [map_fst_replace]
        exact hnd
    | false =>
      have hpresI : (alookup (gKey r) si).isSome = false := by
        rw [← hl]; exact hpres
      have hA : lsUpdate gKey t r =
          .stored (getStoreData t ++ [(gKey r, r)]) := by
        unfold lsUpdate
        simp [hpres]
      have hB : idbPut gKey si r = insertSorted pairKeyLe (gKey r, r) si := by
        unfold idbPut
        simp [hpresI]
      have hnotin : gKey r ∉ (getStoreData t).map Prod.fst := by
        rw [← alookup_isSome_iff, hpres]
        simp
      have hcons : ((gKey r, r) :: getStoreData t).Perm
          (insertSorted pairKeyLe (gKey r, r) si) :=
        (hperm.cons _).trans (insertSorted_perm _ _ si).symm
      refine ⟨?_, ?_, ?_⟩ <;> simp only [lsStep, idbStep, hA, hB]
      · exact outEquiv_refl _
      · show (getStoreData t ++ [(gKey r, r)]).Perm _
        exact (List.perm_append_singleton _ _).trans hcons
      · show ((getStoreData t ++ [(gKey r, r)]).map Prod.fst).Nodup
        rw [List.map_append]
        refine ((List.perm_append_singleton _ _).symm).nodup ?_
        exact List.nodup_cons.mpr ⟨hnotin, hnd⟩
  | deleteById id =>
    refine ⟨outEquiv_refl _, hperm.filter _, ?_⟩
    show (((getStoreData t).filter fun p => decide (p.1 ≠ id)).map
      Prod.fst).Nodup
    exact hnd.sublist ((List.filter_sublist _).map Prod.fst)
  | clearStore =>
    exact ⟨outEquiv_refl _, List.Perm.refl _, List.nodup_nil⟩

theorem engineRun_parity :
    ∀ (ops : List EngineOp) (t : StoredText GRec) (si : List (String × GRec)),
      (getStoreData t).Perm si → ((getStoreData t).map Prod.fst).Nodup →
      List.Forall₂ outEquiv (lsRun ops t).1 (idbRun ops si).1 := by
  intro ops
  induction ops with
  | nil => intro t si _ _; exact List.Forall₂.nil
  | cons op rest ih =>
    intro t si hperm hnd
    obtain ⟨ho, hp', hn'⟩ := engineStep_parity op t si hperm hnd
    simp only [lsRun, idbRun]
    exact List.Forall₂.cons ho (ih _ _ hp' hn')

/-! ## Helper lemmas: the date-range query -/

theorem exFld_date (r : RawExercise) : exFld r "date" = some r.date := rfl

theorem startOfDay_lt_bound (d1 d2 : ℕ) (h12 : d1 ≤ d2)
    (hb : endOfDay d2 < jsTimeBound) : startOfDay d1 < jsTimeBound :=
  lt_of_le_of_lt (le_trans (startOfDay_le d1)
    (le_trans h12 (le_endOfDay d2))) hb

theorem rangeCond_serializeV (d1 d2 : ℕ) (e : Exercise) (h12 : d1 ≤ d2)
    (hb : endOfDay d2 < jsTimeBound) (he : exerciseOk e = true) :
    (match exFld (ExerciseRepository.serializeV e) "date" with
     | some s => strLe (pad17 (startOfDay d1)) s && strLe s (pad17 (endOfDay d2))
     | none => false) = dateInRange d1 d2 e := by
  have hlo : startOfDay d1 < jsTimeBound := startOfDay_lt_bound d1 d2 h12 hb
  simp only [exerciseOk, Bool.and_eq_true] at he
  rcases hd : e.date with _ | t
  · rw [hd] at he
    simp [jdateOk] at he
  · rw [hd] at he
    simp only [jdateOk, decide_eq_true_eq] at he
    have ht : t < jsTimeBound := he.1.1
    rw [exFld_date]
    show (strLe (pad17 (startOfDay d1)) (pad17 ((e.date).getD 0)) &&
        strLe (pad17 ((e.date).getD 0)) (pad17 (endOfDay d2))) = dateInRange d1 d2 e
    rw [hd]
    simp only [Option.getD_some, dateInRange]
    rw [strLe_pad17 _ _ hlo ht, strLe_pad17 _ _ ht hb, hd]

/-! ## Claims -/

/-- C1: the claim says `get()` on an empty settings store terminates,
returns the documented default record and persists it.  The code violates
this: `get` calls `update(DEFAULT_USER_SETTINGS)` on absence, and `update`
re-enters `get` before anything is written, so on the empty store the pair
recurses forever — `get` yields fuel exhaustion at every call depth and
never writes the defaults. -/
theorem c1_settingsGet_empty_diverges :
    ∀ fuel now : ℕ, UserSettingsRepository.get fuel now [] = .spin :=
  fun fuel now => (settings_absent_spin now [] rfl fuel).1

/-- C2: the claim says `importData(exportData())` terminates and restores
every store.  The code violates this on every well-formed dataset: when the
settings record is absent the export itself already diverges in `get`, and
when it is present `importData` clears the settings store and then writes
settings through `update`, whose internal `get` hits the now-empty store and
diverges — the round trip exhausts any amount of fuel. -/
theorem c2_exportImport_diverges (fuel now : ℕ) (st : AppState)
    (hnow : now < jsTimeBound) (hwf : AppStateWF st) :
    DataExportRepository.roundTrip fuel now st = .spin :=
  roundTrip_spin_of_wf fuel now st hnow hwf

theorem c2_exportImport_diverges_witness :
    (7 < jsTimeBound ∧
      AppStateWF ⟨[], [],
        [(SETTINGS_ID, ⟨SETTINGS_ID, 2000, .lbs, .system, pad17 5⟩)]⟩) ∧
    DataExportRepository.roundTrip 3 7
      ⟨[], [], [(SETTINGS_ID, ⟨SETTINGS_ID, 2000, .lbs, .system, pad17 5⟩)]⟩ =
      .spin :=
  ⟨⟨by decide, by decide⟩,
    c2_exportImport_diverges 3 7 _ (by decide) (by decide)⟩

/-- C3: the claim says `getRepositories` memoizes the container (true: a
populated cell is returned unchanged) and that the repositories are bound to
whichever backend `detectStorageType` selected (false: in a context with a
`window` but no IndexedDB the detected type is `localstorage`, yet every
repository class is statically bound to the `'./indexedDB'` module). -/
theorem c3_getRepositories_memo_and_binding :
    (∀ (e : BrowserEnv) (c : RepositoryContainer),
        getRepositories e (some c) = (c, some c)) ∧
    (getRepositories ⟨true, false⟩ none).1.storageType = .localstorage ∧
    (getRepositories ⟨true, false⟩ none).1.exerciseBackend = .indexeddb ∧
    (getRepositories ⟨true, false⟩ none).2 =
      some (getRepositories ⟨true, false⟩ none).1 ∧
    StorageType.localstorage ≠ StorageType.indexeddb :=
  ⟨fun _ _ => rfl, rfl, rfl, rfl, by decide⟩

/-- C4 counterexample: on the degraded backend, unparseable store content is
mapped to the empty result — `getAll` of a corrupt store is `[]`, exactly as
for an absent store, with no error surfaced (the read's type has no error
channel at all). -/
theorem c4_counterexample :
    lsGetAll (StoredText.corrupt : StoredText GRec) = [] ∧
    lsGetAll (StoredText.absent : StoredText GRec) = [] ∧
    (StoredText.corrupt : StoredText GRec) ≠ StoredText.absent :=
  ⟨rfl, rfl, by decide⟩

/-- C4 amended: a `JSON.parse` failure in `getStoreData` is caught and
replaced by the empty store object, so every degraded-backend read treats
corrupt store text exactly like an absent store: `getById` yields null,
`getAll` and the index queries yield empty lists, and no `SerializationFault`
is surfaced. -/
theorem c4_amended_silent_empty :
    ∀ id idx v lo hi : String,
      lsGetById (StoredText.corrupt : StoredText GRec) id = none ∧
      lsGetAll (StoredText.corrupt : StoredText GRec) = [] ∧
      lsGetByIndex gFld StoredText.corrupt idx v = [] ∧
      lsGetByIndexRange gFld StoredText.corrupt idx lo hi = [] ∧
      getStoreData (StoredText.corrupt : StoredText GRec) =
        getStoreData (StoredText.absent : StoredText GRec) :=
  fun _ _ _ _ _ => ⟨rfl, rfl, rfl, rfl, rfl⟩

/-- C5 counterexample: a partial-update argument that itself contains
`createdAt` overrides the stored `createdAt` — the spread merge re-pins only
`id` and `updatedAt`.  The stored record has `createdAt = 5`; after
`update("a", { createdAt: 9 })` the record's `createdAt` is `9`. -/
theorem c5_counterexample :
    (ExerciseRepository.getByIdIDB
        [("a", ExerciseRepository.serializeV
          ⟨"a", "Bench", some 10, [], none, some 5, some 6⟩)] "a").map
      Exercise.createdAt = some (some 5) ∧
    ((ExerciseRepository.updateIDB 100 "a" { createdAt := some (some 9) }
        [("a", ExerciseRepository.serializeV
          ⟨"a", "Bench", some 10, [], none, some 5, some 6⟩)]).toOption.map
      fun pr => pr.1.createdAt) = some (some 9) ∧
    (some (some 9) : Option (Option ℕ)) ≠ some (some 5) := by
  refine ⟨by decide, by decide, by decide⟩

/-- C5 amended: for both repositories, a successful `update(id, partial)`
never changes `id` (it is re-pinned after the spread) and always sets
`updatedAt` to the current clock (hence ≥ the previous value whenever the
clock is); `createdAt` is preserved exactly when the partial does not itself
carry a `createdAt` field. -/
theorem c5_amended_update_frame :
    ∀ (now : ℕ) (id : String) (p : ExercisePatch) (q : FoodPatch)
      (stE stE' : List (String × RawExercise))
      (stF stF' : List (String × RawFood))
      (e' : Exercise) (f' : FoodEntry) (ex : Exercise) (fx : FoodEntry),
      ExerciseRepository.getByIdIDB stE id = some ex →
      ExerciseRepository.updateIDB now id p stE = .ok (e', stE') →
      FoodRepository.getByIdIDB stF id = some fx →
      FoodRepository.updateIDB now id q stF = .ok (f', stF') →
      (e'.id = id ∧ e'.updatedAt = some now ∧
        (p.createdAt = none → e'.createdAt = ex.createdAt)) ∧
      (f'.id = id ∧ f'.updatedAt = some now ∧
        (q.createdAt = none → f'.createdAt = fx.createdAt)) := by
  intro now id p q stE stE' stF stF' e' f' ex fx hge hue hgf huf
  constructor
  · unfold ExerciseRepository.updateIDB at hue
    rw [hge] at hue
    rcases hser : ExerciseRepository.serialize
        (ExerciseRepository.mergeUpdate ex p id now) with _ | raw
    · simp [hser] at hue
    · simp only [hser, Except.ok.injEq, Prod.mk.injEq] at hue
      obtain ⟨he', _⟩ := hue
      subst he'
      refine ⟨rfl, rfl, fun hnone => ?_⟩
      unfold ExerciseRepository.mergeUpdate
      simp [hnone]
  · unfold FoodRepository.updateIDB at huf
    rw [hgf] at huf
    rcases hser : FoodRepository.serialize
        (FoodRepository.mergeUpdate fx q id now) with _ | raw
    · simp [hser] at huf
    · simp only [hser, Except.ok.injEq, Prod.mk.injEq] at huf
      obtain ⟨hf', _⟩ := huf
      subst hf'
      refine ⟨rfl, rfl, fun hnone => ?_⟩
      unfold FoodRepository.mergeUpdate
      simp [hnone]

theorem c5_amended_update_frame_witness :
    (Exercise.mk "b" "Row2" (some 20) [] none (some 3) (some 50)).id = "b" ∧
    (Exercise.mk "b" "Row2" (some 20) [] none (some 3) (some 50)).updatedAt =
      some 50 ∧
    (Exercise.mk "b" "Row2" (some 20) [] none (some 3) (some 50)).createdAt =
      (Exercise.mk "b" "Row" (some 20) [] none (some 3) (some 4)).createdAt ∧
    (FoodEntry.mk "b" "Egg2" (some 20) .breakfast "1" 1 ⟨70, 6, 0, 5⟩
      (some 3) (some 50)).id = "b" ∧
    (FoodEntry.mk "b" "Egg2" (some 20) .breakfast "1" 1 ⟨70, 6, 0, 5⟩
      (some 3) (some 50)).updatedAt = some 50 ∧
    (FoodEntry.mk "b" "Egg2" (some 20) .breakfast "1" 1 ⟨70, 6, 0, 5⟩
      (some 3) (some 50)).createdAt =
      (FoodEntry.mk "b" "Egg" (some 20) .breakfast "1" 1 ⟨70, 6, 0, 5⟩
        (some 3) (some 4)).createdAt := by
  have h := c5_amended_update_frame 50 "b"
    { name := some "Row2" } { name := some "Egg2" }
    [("b", ExerciseRepository.serializeV
      ⟨"b", "Row", some 20, [], none, some 3, some 4⟩)]
    [("b", ExerciseRepository.serializeV
      ⟨"b", "Row2", some 20, [], none, some 3, some 50⟩)]
    [("b", FoodRepository.serializeV
      ⟨"b", "Egg", some 20, .breakfast, "1", 1, ⟨70, 6, 0, 5⟩, some 3, some 4⟩)]
    [("b", FoodRepository.serializeV
      ⟨"b", "Egg2", some 20, .breakfast, "1", 1, ⟨70, 6, 0, 5⟩, some 3,
        some 50⟩)]
    ⟨"b", "Row2", some 20, [], none, some 3, some 50⟩
    ⟨"b", "Egg2", some 20, .breakfast, "1", 1, ⟨70, 6, 0, 5⟩, some 3, some 50⟩
    ⟨"b", "Row", some 20, [], none, some 3, some 4⟩
    ⟨"b", "Egg", some 20, .breakfast, "1", 1, ⟨70, 6, 0, 5⟩, some 3, some 4⟩
    (by decide) rfl (by decide) rfl
  exact ⟨h.1.1, h.1.2.1, h.1.2.2 rfl, h.2.1, h.2.2.1, h.2.2.2 rfl⟩

/-- C6: creating twice with the same identifier: the second `create` raises
the duplicate-key error on both backends, and the record written by the
first call is still stored with its original field values. -/
theorem c6_duplicate_create (f g : FoodEntry) (hid : g.id = f.id)
    (hf : foodOk f = true) (hg : foodOk g = true)
    (stI stI' : List (String × RawFood)) (t t' : StoredText RawFood)
    (h1 : FoodRepository.createIDB f stI = .ok (f, stI'))
    (h2 : FoodRepository.createLS f t = .ok (f, t')) :
    FoodRepository.createIDB g stI' = .error .duplicateKey ∧
    FoodRepository.createLS g t' = .error .duplicateKey ∧
    alookup f.id stI' = some (FoodRepository.serializeV f) ∧
    alookup f.id (getStoreData t') = some (FoodRepository.serializeV f) := by
  have hsf := food_serialize_eq_serializeV f hf
  have hsg := food_serialize_eq_serializeV g hg
  have hvid : RawFood.id (FoodRepository.serializeV f) = f.id := rfl
  have hgid : RawFood.id (FoodRepository.serializeV g) = g.id := rfl
  simp only [FoodRepository.createIDB, hsf, idbAdd] at h1
  simp only [FoodRepository.createLS, hsf, lsAdd] at h2
  rw [hvid] at h1 h2
  cases hpres : (alookup f.id stI).isSome with
  | true =>
    simp [hpres, Except.map] at h1
  | false =>
    cases hprt : (alookup f.id (getStoreData t)).isSome with
    | true =>
      simp [hprt, Except.map] at h2
    | false =>
      simp only [hpres, Bool.false_eq_true, if_false, Except.map,
        Except.ok.injEq, Prod.mk.injEq] at h1
      simp only [hprt, Bool.false_eq_true, if_false, Except.map,
        Except.ok.injEq, Prod.mk.injEq] at h2
      have hsti : stI' = insertSorted pairKeyLe
          (f.id, FoodRepository.serializeV f) stI := h1.2.symm
      have hst : t' = .stored (getStoreData t ++
          [(f.id, FoodRepository.serializeV f)]) := h2.2.symm
      have hnI : alookup f.id stI = none := by
        rcases hI : alookup f.id stI with _ | v
        · rfl
        · rw [hI] at hpres
          cases hpres
      have hnT : alookup f.id (getStoreData t) = none := by
        rcases hT : alookup f.id (getStoreData t) with _ | v
        · rfl
        · rw [hT] at hprt
          cases hprt
      have hlookI : alookup f.id stI' = some (FoodRepository.serializeV f) := by
        rw [hsti]
        exact alookup_insertSorted_self _ _ _ hnI
      have hlookT : alookup f.id (getStoreData t') =
          some (FoodRepository.serializeV f) := by
        rw [hst]
        exact alookup_append_self _ _ _ hnT
      refine ⟨?_, ?_, hlookI, hlookT⟩
      · simp only [FoodRepository.createIDB, hsg, idbAdd]
        rw [hgid, hid, hlookI]
        rfl
      · simp only [FoodRepository.createLS, hsg, lsAdd]
        rw [hgid, hid, hlookT]
        rfl

theorem c6_duplicate_create_witness :
    FoodRepository.createIDB
      ⟨"k", "Oat", some 8, .snack, "1", 1, ⟨100, 3, 20, 2⟩, some 1, some 2⟩
      [("k", FoodRepository.serializeV
        ⟨"k", "Rice", some 7, .lunch, "1", 1, ⟨200, 4, 45, 1⟩, some 1,
          some 2⟩)] = .error .duplicateKey ∧
    FoodRepository.createLS
      ⟨"k", "Oat", some 8, .snack, "1", 1, ⟨100, 3, 20, 2⟩, some 1, some 2⟩
      (.stored [("k", FoodRepository.serializeV
        ⟨"k", "Rice", some 7, .lunch, "1", 1, ⟨200, 4, 45, 1⟩, some 1,
          some 2⟩)]) = .error .duplicateKey ∧
    alookup "k" [("k", FoodRepository.serializeV
        ⟨"k", "Rice", some 7, .lunch, "1", 1, ⟨200, 4, 45, 1⟩, some 1,
          some 2⟩)] =
      some (FoodRepository.serializeV
        ⟨"k", "Rice", some 7, .lunch, "1", 1, ⟨200, 4, 45, 1⟩, some 1,
          some 2⟩) := by
  have h := c6_duplicate_create
    ⟨"k", "Rice", some 7, .lunch, "1", 1, ⟨200, 4, 45, 1⟩, some 1, some 2⟩
    ⟨"k", "Oat", some 8, .snack, "1", 1, ⟨100, 3, 20, 2⟩, some 1, some 2⟩
    rfl (by decide) (by decide)
    []
    [("k", FoodRepository.serializeV
      ⟨"k", "Rice", some 7, .lunch, "1", 1, ⟨200, 4, 45, 1⟩, some 1, some 2⟩)]
    .absent
    (.stored [("k", FoodRepository.serializeV
      ⟨"k", "Rice", some 7, .lunch, "1", 1, ⟨200, 4, 45, 1⟩, some 1, some 2⟩)])
    rfl rfl
  exact ⟨h.1, h.2.1, h.2.2.1⟩

set_option maxRecDepth 4000 in
/-- C7: over any store holding the serialized records of a list of valid
exercises, `getByDateRange(d1, d2)` returns exactly the exercises whose date
timestamp lies in the inclusive interval `[startOfDay d1, endOfDay d2]`; the
degraded backend returns them in store order, the durable backend returns
the same result set (a permutation) for any key-ordering of its entries, and
membership is characterized by the numeric day bounds — the string-lexical
comparison on serialized dates agrees with chronological order. -/
theorem c7_getByDateRange (d1 d2 : ℕ) (h12 : d1 ≤ d2)
    (hb : endOfDay d2 < jsTimeBound) (es : List Exercise)
    (hv : ∀ e ∈ es, exerciseOk e = true)
    (stI : List (String × RawExercise))
    (hperm : stI.Perm (es.map fun e => (e.id, ExerciseRepository.serializeV e))) :
    ExerciseRepository.getByDateRangeLS d1 d2
        (.stored (es.map fun e => (e.id, ExerciseRepository.serializeV e))) =
      .ok (es.filter (dateInRange d1 d2)) ∧
    (∃ res, ExerciseRepository.getByDateRangeIDB d1 d2 stI = .ok res ∧
      res.Perm (es.filter (dateInRange d1 d2))) ∧
    ∀ e, e ∈ es.filter (dateInRange d1 d2) ↔
      e ∈ es ∧ ∃ t, e.date = some t ∧ startOfDay d1 ≤ t ∧ t ≤ endOfDay d2 := by
  have hlo : startOfDay d1 < jsTimeBound := startOfDay_lt_bound d1 d2 h12 hb
  have hISlo : toISOString (some (startOfDay d1)) =
      some (pad17 (startOfDay d1)) := toISOString_some _ hlo
  have hIShi : toISOString (some (endOfDay d2)) =
      some (pad17 (endOfDay d2)) := toISOString_some _ hb
  have hsnd : (es.map fun e => (e.id, ExerciseRepository.serializeV e)).map
      Prod.snd = es.map ExerciseRepository.serializeV := by
    rw [List.map_map]
    rfl
  have hfilter : (es.map ExerciseRepository.serializeV).filter
      (fun r => match exFld r "date" with
        | some s => strLe (pad17 (startOfDay d1)) s &&
            strLe s (pad17 (endOfDay d2))
        | none => false) =
      (es.filter (dateInRange d1 d2)).map ExerciseRepository.serializeV := by
    rw [List.filter_map]
    exact congrArg (List.map ExerciseRepository.serializeV)
      (List.filter_congr fun e he => rangeCond_serializeV d1 d2 e h12 hb (hv e he))
  have hdeser : ((es.filter (dateInRange d1 d2)).map
        ExerciseRepository.serializeV).map ExerciseRepository.deserialize =
      es.filter (dateInRange d1 d2) := by
    rw [List.map_map]
    have hpt : ∀ e ∈ es.filter (dateInRange d1 d2),
        (ExerciseRepository.deserialize ∘ ExerciseRepository.serializeV) e =
          id e := fun e he =>
      exercise_deserialize_serializeV e
        (hv e (List.mem_of_mem_filter he))
    rw [List.map_congr_left hpt, List.map_id]
  refine ⟨?_, ?_, ?_⟩
  · have hred : ExerciseRepository.getByDateRangeLS d1 d2
        (.stored (es.map fun e => (e.id, ExerciseRepository.serializeV e))) =
        .ok ((lsGetByIndexRange exFld
          (.stored (es.map fun e => (e.id, ExerciseRepository.serializeV e)))
          "date" (pad17 (startOfDay d1)) (pad17 (endOfDay d2))).map
            ExerciseRepository.deserialize) := by
      unfold ExerciseRepository.getByDateRangeLS
      rw [hISlo, hIShi]
    rw [hred]
    unfold lsGetByIndexRange lsGetAll getStoreData
    rw [hsnd, hfilter, hdeser]
  · have hred : ExerciseRepository.getByDateRangeIDB d1 d2 stI =
        .ok ((idbGetByIndexRange exFld stI "date" (pad17 (startOfDay d1))
          (pad17 (endOfDay d2))).map ExerciseRepository.deserialize) := by
      unfold ExerciseRepository.getByDateRangeIDB
      rw [hISlo, hIShi]
    refine ⟨_, hred, ?_⟩
    unfold idbGetByIndexRange idbGetAll
    have hpermsnd : (stI.map Prod.snd).Perm
        (es.map ExerciseRepository.serializeV) := by
      have hp := hperm.map Prod.snd
      rw [hsnd] at hp
      exact hp
    have hpf := hpermsnd.filter
      (fun r => match exFld r "date" with
        | some s => strLe (pad17 (startOfDay d1)) s &&
            strLe s (pad17 (endOfDay d2))
        | none => false)
    have hms := List.mergeSort_perm ((stI.map Prod.snd).filter
        (fun r => match exFld r "date" with
          | some s => strLe (pad17 (startOfDay d1)) s &&
              strLe s (pad17 (endOfDay d2))
          | none => false))
      fun r r' => strLe ((exFld r "date").getD "") ((exFld r' "date").getD "")
    have hfinal : (((es.map ExerciseRepository.serializeV).filter
        (fun r => match exFld r "date" with
          | some s => strLe (pad17 (startOfDay d1)) s &&
              strLe s (pad17 (endOfDay d2))
          | none => false)).map ExerciseRepository.deserialize) =
        es.filter (dateInRange d1 d2) := by
      rw [hfilter]
      exact hdeser
    have hres := (hms.trans hpf).map ExerciseRepository.deserialize
    rw [hfinal] at hres
    exact hres
  · intro e
    simp only [List.mem_filter]
    constructor
    · rintro ⟨hmem, hcond⟩
      refine ⟨hmem, ?_⟩
      unfold dateInRange at hcond
      rcases hd : e.date with _ | t
      · rw [hd] at hcond
        cases hcond
      · rw [hd] at hcond
        simp only [Bool.and_eq_true, decide_eq_true_eq] at hcond
        exact ⟨t, rfl, hcond.1, hcond.2⟩
    · rintro ⟨hmem, t, hd, hle1, hle2⟩
      refine ⟨hmem, ?_⟩
      unfold dateInRange
      rw [hd]
      simp [hle1, hle2]

theorem c7_getByDateRange_witness :
    ((0 : ℕ) ≤ dayMillis ∧ endOfDay dayMillis < jsTimeBound) ∧
    ExerciseRepository.getByDateRangeLS 0 dayMillis
      (.stored ([⟨"p", "Squat", some 1000, [], none, some 1, some 2⟩,
        ⟨"q", "Dead", some (3 * dayMillis), [], none, some 1, some 2⟩].map
        fun e => (e.id, ExerciseRepository.serializeV e))) =
      .ok ([⟨"p", "Squat", some 1000, [], none, some 1, some 2⟩,
        ⟨"q", "Dead", some (3 * dayMillis), [], none, some 1, some 2⟩].filter
        (dateInRange 0 dayMillis)) ∧
    ([⟨"p", "Squat", some 1000, [], none, some 1, some 2⟩,
      ⟨"q", "Dead", some (3 * dayMillis), [], none, some 1, some 2⟩].filter
      (dateInRange 0 dayMillis) : List Exercise) =
      [⟨"p", "Squat", some 1000, [], none, some 1, some 2⟩] := by
  refine ⟨⟨by decide, by decide⟩, ?_, by decide⟩
  exact (c7_getByDateRange 0 dayMillis (by decide) (by decide)
    [⟨"p", "Squat", some 1000, [], none, some 1, some 2⟩,
      ⟨"q", "Dead", some (3 * dayMillis), [], none, some 1, some 2⟩]
    (by decide)
    ([⟨"p", "Squat", some 1000, [], none, some 1, some 2⟩,
      ⟨"q", "Dead", some (3 * dayMillis), [], none, some 1, some 2⟩].map
      fun e => (e.id, ExerciseRepository.serializeV e))
    (List.Perm.refl _)).1

/-- C8: for every finite operation sequence applied from the empty state,
the durable (IndexedDB-model) and degraded (localStorage-model) engines
produce observably equivalent results at every step: identical point reads,
identical write acknowledgements, an error at one backend exactly when the
other errors (with the same error), and multi-record reads that agree as
multisets (the contract returns them unordered). -/
theorem c8_backend_parity (ops : List EngineOp) :
    List.Forall₂ outEquiv (lsRun ops .absent).1 (idbRun ops []).1 :=
  engineRun_parity ops .absent [] (List.Perm.refl _) List.nodup_nil

/-- C9: for each of the three entity types, deserialization inverts
serialization: every date-bearing field goes to ISO text and parses back to
the same timestamp, every other field (including the order of an Exercise's
`sets` sequence, asserted separately) is carried verbatim. -/
theorem c9_serialization_roundtrip :
    ∀ (e : Exercise) (f : FoodEntry) (s : UserSettings),
      exerciseOk e = true → foodOk f = true → jdateOk s.updatedAt = true →
      (ExerciseRepository.serialize e).map ExerciseRepository.deserialize =
        some e ∧
      (FoodRepository.serialize f).map FoodRepository.deserialize = some f ∧
      (UserSettingsRepository.serialize s).map
        UserSettingsRepository.deserialize = some s ∧
      (ExerciseRepository.serialize e).map RawExercise.sets = some e.sets := by
  intro e f s he hf hs
  refine ⟨?_, ?_, settings_deserialize_serialize s hs, ?_⟩
  · rw [exercise_serialize_eq_serializeV e he]
    simp [exercise_deserialize_serializeV e he]
  · rw [food_serialize_eq_serializeV f hf]
    simp [food_deserialize_serializeV f hf]
  · rw [exercise_serialize_eq_serializeV e he]
    rfl

theorem c9_serialization_roundtrip_witness :
    exerciseOk ⟨"w", "Press", some 11, [⟨"s1", 10, 135⟩, ⟨"s2", 8, 145⟩],
      some "pr", some 7, some 9⟩ = true ∧
    (ExerciseRepository.serialize ⟨"w", "Press", some 11,
        [⟨"s1", 10, 135⟩, ⟨"s2", 8, 145⟩], some "pr", some 7, some 9⟩).map
      ExerciseRepository.deserialize =
      some ⟨"w", "Press", some 11, [⟨"s1", 10, 135⟩, ⟨"s2", 8, 145⟩],
        some "pr", some 7, some 9⟩ ∧
    (FoodRepository.serialize ⟨"v", "Milk", some 12, .snack, "1 cup", 2,
        ⟨150, 8, 12, 8⟩, some 7, some 9⟩).map FoodRepository.deserialize =
      some ⟨"v", "Milk", some 12, .snack, "1 cup", 2, ⟨150, 8, 12, 8⟩,
        some 7, some 9⟩ ∧
    (UserSettingsRepository.serialize ⟨2200, .kg, .dark, some 13⟩).map
      UserSettingsRepository.deserialize = some ⟨2200, .kg, .dark, some 13⟩ := by
  have h := c9_serialization_roundtrip
    ⟨"w", "Press", some 11, [⟨"s1", 10, 135⟩, ⟨"s2", 8, 145⟩], some "pr",
      some 7, some 9⟩
    ⟨"v", "Milk", some 12, .snack, "1 cup", 2, ⟨150, 8, 12, 8⟩, some 7, some 9⟩
    ⟨2200, .kg, .dark, some 13⟩
    (by decide) (by decide) (by decide)
  exact ⟨by decide, h.1, h.2.1, h.2.2.1⟩

/-- C10: `importData` skips a non-array `exercises` or `foods` section
silently, and an absent `settings` field causes no settings write, leaving
the settings store cleared (second conjunct).  But the claim's "importData
still succeeds" fails whenever the snapshot does carry a settings object:
after the clear phase the settings store is empty, so the settings write
path diverges in the `get`/`update` recursion (first conjunct). -/
theorem c10_import_skip_sections (fuel now : ℕ) (st : AppState) :
    DataExportRepository.importData fuel now
      ⟨.nonArray, .nonArray, some ⟨2000, .lbs, .system, "corrupt"⟩, "t",
        EXPORT_VERSION⟩ st = .spin ∧
    ∀ d : ExportData, d.exercises = .nonArray → d.foods = .nonArray →
      d.settings = none →
      DataExportRepository.importData fuel now d st = .ok ⟨[], [], []⟩ := by
  constructor
  · have hspin := (settings_absent_spin now ([] : List (String × RawSettings))
      rfl fuel).2
      ⟨some 2000, some .lbs, some .system, some (jsNewDate "corrupt")⟩
    unfold DataExportRepository.importData DataExportRepository.clearAllData
    simp only [idbClearStore, hspin, Res.bind]
  · intro d h1 h2 h3
    rcases d with ⟨de, df, ds, da, dv⟩
    simp only at h1 h2 h3
    subst h1
    subst h2
    subst h3
    rfl

theorem c10_import_skip_sections_witness :
    DataExportRepository.importData 3 0
      ⟨.nonArray, .nonArray, some ⟨2000, .lbs, .system, "corrupt"⟩, "t",
        EXPORT_VERSION⟩ ⟨[], [], []⟩ = .spin ∧
    DataExportRepository.importData 3 0
      ⟨.nonArray, .nonArray, none, "t", EXPORT_VERSION⟩ ⟨[], [], []⟩ =
      .ok ⟨[], [], []⟩ :=
  ⟨(c10_import_skip_sections 3 0 ⟨[], [], []⟩).1,
    (c10_import_skip_sections 3 0 ⟨[], [], []⟩).2
      ⟨.nonArray, .nonArray, none, "t", EXPORT_VERSION⟩ rfl rfl rfl⟩
